import Mathlib

/-!
Verification development for the AceMarket paper-trading backtest engine.

The definitions below are a shallow embedding of the Python sources
(backend/portfolio.py, backend/stock.py, backend/backtest.py,
backend/analytics.py, backend/api.py).  Monetary values, prices and
quantities are modelled as rationals; Python float arithmetic on the
concrete dyadic inputs used in the example-based theorems is exact, so
the rational model agrees with the source on those inputs.  Python's
built-in round (banker's rounding, ties to even) is modelled by
roundHalfEven.  Methods that can raise ValueError are modelled as
functions returning the final state together with an optional error
message: an error result carries the state exactly as it was at the
moment the Python code raises.
-/

namespace AceMarket

/-- One OHLC bar (stock.py rows: Open, High, Low, Close). -/
structure Bar where
  o : ℚ
  h : ℚ
  l : ℚ
  c : ℚ
deriving Repr, DecidableEq

/-- A price series: symbol, ISO date strings and bars, index-aligned
(stock.py Stock.df). -/
structure Stock where
  symbol : String
  dates : List String
  bars : List Bar
deriving Repr, DecidableEq

/-- An index argument as accepted by Stock.to_iloc: an integer position
or a date string. -/
inductive StockIdx where
  | nat (i : Nat)
  | date (d : String)
deriving Repr, DecidableEq

def Stock.size (s : Stock) : Nat := s.bars.length

/-- stock.py to_iloc on an integer: clamp into the index range. -/
def Stock.to_iloc_nat (s : Stock) (i : Nat) : Nat := min i (s.size - 1)

/-- stock.py to_iloc on a date: forward-fill lookup (position of the last
date that is at most the query), clamped; a date before the first bar
gives 0. -/
def Stock.to_iloc_date (s : Stock) (d : String) : Nat :=
  min ((s.dates.filter (fun t => decide (t ≤ d))).length - 1) (s.size - 1)

def Stock.to_iloc (s : Stock) : StockIdx → Nat
  | .nat i => s.to_iloc_nat i
  | .date d => s.to_iloc_date d

/-- stock.py get_candle. -/
def Stock.get_candle (s : Stock) (idx : StockIdx) : Bar :=
  s.bars.getD (s.to_iloc idx) ⟨0, 0, 0, 0⟩

/-- stock.py price: close at the clamped integer index. -/
def Stock.price (s : Stock) (i : Nat) : ℚ :=
  (s.bars.getD (s.to_iloc_nat i) ⟨0, 0, 0, 0⟩).c

/-- portfolio.py Portfolio._trade_meta: clamped fill index and the
(optional) YYYY-MM-DD date string at it. -/
def Stock.trade_meta (s : Stock) (index : Nat) : Nat × Option String :=
  let i := min index (s.size - 1)
  (i, s.dates.get? i)

/-- One open position (portfolio.py self._positions values). -/
structure Position where
  stock : Stock
  quantity : ℚ
  avg_price : ℚ
  realized_pnl : ℚ
deriving Repr, DecidableEq

/-- One equity-curve point (portfolio.py _append_equity). -/
structure EquityPoint where
  i : Nat
  v : ℚ
deriving Repr, DecidableEq

/-- One trade-log entry.  The field amount holds the source's
cost (long), proceeds (short) or amount (exit) value. -/
structure TradeEvent where
  ttype : String
  stock : String
  quantity : ℚ
  price : ℚ
  fill_price : ℚ
  amount : ℚ
  commission : ℚ
  realized_pnl : ℚ
  index : Nat
  time : Option String
deriving Repr, DecidableEq

/-- Association-list lookup, modelling Python dict get (keys unique). -/
def alookup {α : Type} : List (String × α) → String → Option α
  | [], _ => none
  | (k, v) :: rest, s => if k = s then some v else alookup rest s

/-- Association-list write, modelling Python dict item assignment:
replace in place if the key exists, else append (insertion order kept). -/
def aset {α : Type} : List (String × α) → String → α → List (String × α)
  | [], s, v => [(s, v)]
  | (k, w) :: rest, s, v => if k = s then (s, v) :: rest else (k, w) :: aset rest s v

/-- Association-list removal, modelling Python dict pop. -/
def aerase {α : Type} : List (String × α) → String → List (String × α)
  | [], _ => []
  | (k, w) :: rest, s => if k = s then rest else (k, w) :: aerase rest s

/-- The portfolio state and configuration (portfolio.py __init__ defaults). -/
structure Portfolio where
  positions : List (String × Position) := []
  realized : List (String × ℚ) := []
  cash : ℚ := 0
  slippage : ℚ := 0
  share_min_pct : ℚ := 10
  commission : ℚ := 0
  commission_per_order : ℚ := 0
  commission_per_share : ℚ := 0
  allow_short : Bool := true
  max_positions : Nat := 0
  max_position_pct : ℚ := 0
  min_cash_reserve_pct : ℚ := 0
  min_trade_value : ℚ := 0
  max_trade_value : ℚ := 0
  max_order_qty : Nat := 0
  short_margin_requirement : ℚ := 3 / 2
  trade_log : List TradeEvent := []
  equity_curve : List EquityPoint := []
deriving Repr, DecidableEq

/-- Python built-in round to an integer: nearest, ties to even. -/
def roundHalfEven (q : ℚ) : ℤ :=
  if q - ⌊q⌋ < 1 / 2 then ⌊q⌋
  else if 1 / 2 < q - ⌊q⌋ then ⌊q⌋ + 1
  else if ⌊q⌋ % 2 = 0 then ⌊q⌋ else ⌊q⌋ + 1

/-- Python round(x, 2): nearest hundredth, ties to even. -/
def round2 (q : ℚ) : ℚ := (roundHalfEven (q * 100) : ℚ) / 100

/-- portfolio.py Portfolio._round_qty. -/
def Portfolio.round_qty (p : Portfolio) (qty : ℚ) : ℚ :=
  let smp := if p.share_min_pct = 0 then 100 else p.share_min_pct
  let inc := smp / 100
  if 1 ≤ inc then (roundHalfEven qty : ℚ)
  else round2 ((roundHalfEven (qty / inc) : ℚ) * inc)

/-- portfolio.py Portfolio._slippage_factor (signed; raises on bad slippage). -/
def Portfolio.slippage_factor (p : Portfolio) (side : String) : Except String ℚ :=
  if p.slippage < 0 ∨ 1 ≤ p.slippage then .error "Slippage must be in [0, 1)"
  else .ok (if side = "buy" then p.slippage else -p.slippage)

/-- portfolio.py Portfolio._fill_price.  Note the source applies the
already sign-flipped factor again with a minus for sells. -/
def Portfolio.fill_price (p : Portfolio) (side : String) (price : ℚ) : Except String ℚ :=
  match p.slippage_factor side with
  | .error e => .error e
  | .ok slip =>
    if side = "buy" then .ok (price * (1 + slip))
    else if side = "sell" then .ok (price * (1 - slip))
    else .error "Invalid side"

/-- portfolio.py Portfolio._compute_commission. -/
def Portfolio.compute_commission (p : Portfolio) (quantity notional : ℚ) : ℚ :=
  if 0 < p.commission_per_order ∨ 0 < p.commission_per_share then
    p.commission_per_order + p.commission_per_share * |quantity|
  else if 0 < p.commission then notional * p.commission
  else 0

/-- portfolio.py Portfolio.get_value at an explicit index. -/
def Portfolio.get_value (p : Portfolio) (index : Nat) : ℚ :=
  p.cash + (p.positions.map (fun kv => kv.2.stock.price index * kv.2.quantity)).sum

/-- portfolio.py Portfolio.get_short_market_value. -/
def Portfolio.get_short_market_value (p : Portfolio) (index : Nat) : ℚ :=
  (p.positions.map (fun kv =>
    if kv.2.quantity < 0 then kv.2.stock.price index * |kv.2.quantity| else 0)).sum

/-- portfolio.py Portfolio.get_reserved_cash. -/
def Portfolio.get_reserved_cash (p : Portfolio) (index : Nat) : ℚ :=
  let equity := p.get_value index
  let short_mv := p.get_short_market_value index
  let short_reserve := if 0 < short_mv then p.short_margin_requirement * short_mv else 0
  let cash_reserve := if p.min_cash_reserve_pct ≠ 0 then p.min_cash_reserve_pct * max 0 equity else 0
  short_reserve + cash_reserve

/-- portfolio.py Portfolio.get_buying_power. -/
def Portfolio.get_buying_power (p : Portfolio) (index : Nat) : ℚ :=
  p.cash - p.get_reserved_cash index

/-- The (stock, qty) view of a positions map (portfolio.py _positions_view). -/
def posView (l : List (String × Position)) : List (String × (Stock × ℚ)) :=
  l.map (fun kv => (kv.1, (kv.2.stock, kv.2.quantity)))

/-- portfolio.py Portfolio._positions_view: symbol to (stock, qty). -/
def Portfolio.positions_view (p : Portfolio) : List (String × (Stock × ℚ)) :=
  posView p.positions

/-- The hypothetical post-trade positions view built inside
_check_order_common (lines 220-227): bump the symbol's signed quantity by
the order's delta, dropping the entry when it lands on zero. -/
def projUpdate (view : List (String × (Stock × ℚ))) (symbol : String) (stock : Stock)
    (side : String) (quantity : ℚ) : List (String × (Stock × ℚ)) :=
  let cur_qty := ((alookup view symbol).map Prod.snd).getD 0
  let delta_qty := if side = "buy" then quantity else -quantity
  let post_qty := cur_qty + delta_qty
  if post_qty = 0 then aerase view symbol else aset view symbol (stock, post_qty)

/-- portfolio.py Portfolio._reserved_cash_projected. -/
def Portfolio.reserved_cash_projected (p : Portfolio) (cash_after : ℚ)
    (positions_after : List (String × (Stock × ℚ))) (index : Nat) : ℚ :=
  let equity := cash_after + (positions_after.map (fun kv => kv.2.1.price index * kv.2.2)).sum
  let short_mv := (positions_after.map (fun kv =>
    if kv.2.2 < 0 then kv.2.1.price index * |kv.2.2| else 0)).sum
  let short_reserve := if 0 < short_mv then p.short_margin_requirement * short_mv else 0
  let cash_reserve := if p.min_cash_reserve_pct ≠ 0 then p.min_cash_reserve_pct * max 0 equity else 0
  short_reserve + cash_reserve

/-- portfolio.py Portfolio._check_order_common: the first failing check's
message, or none when the order is admitted. -/
def Portfolio.check_order_common (p : Portfolio) (stock : Stock) (side : String)
    (quantity : ℚ) (trade_index : Nat) (trade_value cost_cash_change : ℚ) : Option String :=
  if quantity ≤ 0 then some "Quantity must be positive"
  else if p.max_order_qty ≠ 0 ∧ (p.max_order_qty : ℚ) < quantity then
    some "Order qty exceeds max_order_qty"
  else if p.min_trade_value ≠ 0 ∧ trade_value < p.min_trade_value then
    some "Trade value is below minimum"
  else if p.max_trade_value ≠ 0 ∧ p.max_trade_value < trade_value then
    some "Trade value exceeds maximum"
  else if alookup p.positions stock.symbol.toUpper = none ∧ p.max_positions ≠ 0 ∧
      p.max_positions ≤ p.positions.length then
    some "Max positions reached"
  else
    let equity_pre := p.get_value trade_index
    if p.max_position_pct ≠ 0 ∧ 0 < equity_pre ∧
        equity_pre * p.max_position_pct + 1 / 1000000000 < trade_value then
      some "Trade exceeds max_position_pct cap"
    else if side = "buy" ∧ p.min_cash_reserve_pct ≠ 0 ∧ 0 < equity_pre ∧
        p.cash - trade_value < equity_pre * p.min_cash_reserve_pct - 1 / 1000000000 then
      some "Trade would violate cash reserve"
    else if cost_cash_change < 0 ∧ p.cash + 1 / 1000000000 < -cost_cash_change then
      some "Not enough cash to enter position"
    else
      let symbol := stock.symbol.toUpper
      let positions_after := projUpdate p.positions_view symbol stock side quantity
      let cash_after := p.cash + cost_cash_change
      let reserved_after := p.reserved_cash_projected cash_after positions_after trade_index
      if cash_after - reserved_after < -(1 / 1000000) then
        some "Insufficient buying power (margin)"
      else none

/-- Realized table read with default 0 (self._realized.get(symbol, 0.0)). -/
def realizedGet (tbl : List (String × ℚ)) (symbol : String) : ℚ :=
  match alookup tbl symbol with
  | some r => r
  | none => 0

/-- The position-map update performed by enter_position_long after the
admission check, together with the realized P&L of the fill (covering a
short).  Mirrors the source's branches, including the in-place
realized_pnl refresh. -/
def updateLongPositions (positions : List (String × Position)) (rtbl : List (String × ℚ))
    (symbol : String) (stock : Stock) (price quantity : ℚ) :
    List (String × Position) × ℚ :=
  match alookup positions symbol with
  | none =>
      (aset positions symbol ⟨stock, quantity, price, realizedGet rtbl symbol⟩, 0)
  | some pos =>
      let qty0 := pos.quantity
      let avg0 := pos.avg_price
      if 0 ≤ qty0 then
        let new_qty := qty0 + quantity
        let new_avg := if new_qty ≠ 0 then (avg0 * qty0 + price * quantity) / new_qty else 0
        (aset positions symbol { pos with stock := stock, quantity := new_qty, avg_price := new_avg }, 0)
      else
        let cover := min quantity |qty0|
        let rlz := (avg0 - price) * cover
        let remaining := quantity - cover
        let new_qty := qty0 + cover
        let positions1 :=
          if new_qty = 0 ∧ remaining = 0 then aerase positions symbol
          else if new_qty = 0 ∧ 0 < remaining then
            aset positions symbol { pos with stock := stock, quantity := remaining, avg_price := price }
          else
            aset positions symbol { pos with stock := stock, quantity := new_qty }
        let positions2 :=
          match alookup positions1 symbol with
          | some pos2 => aset positions1 symbol { pos2 with realized_pnl := realizedGet rtbl symbol + rlz }
          | none => positions1
        (positions2, rlz)

/-- The position-map update performed by enter_position_short after the
admission check (symmetric to the long case; reducing a long realizes). -/
def updateShortPositions (positions : List (String × Position)) (rtbl : List (String × ℚ))
    (symbol : String) (stock : Stock) (price quantity : ℚ) :
    List (String × Position) × ℚ :=
  match alookup positions symbol with
  | none =>
      (aset positions symbol ⟨stock, -quantity, price, realizedGet rtbl symbol⟩, 0)
  | some pos =>
      let qty0 := pos.quantity
      let avg0 := pos.avg_price
      if qty0 ≤ 0 then
        let new_qty := qty0 - quantity
        let new_avg := if |new_qty| ≠ 0 then (avg0 * |qty0| + price * quantity) / |new_qty| else 0
        (aset positions symbol { pos with stock := stock, quantity := new_qty, avg_price := new_avg }, 0)
      else
        let sell_qty := min quantity qty0
        let rlz := (price - avg0) * sell_qty
        let remaining := quantity - sell_qty
        let new_qty := qty0 - sell_qty
        let positions1 :=
          if new_qty = 0 ∧ remaining = 0 then aerase positions symbol
          else if new_qty = 0 ∧ 0 < remaining then
            aset positions symbol { pos with stock := stock, quantity := -remaining, avg_price := price }
          else
            aset positions symbol { pos with stock := stock, quantity := new_qty }
        let positions2 :=
          match alookup positions1 symbol with
          | some pos2 => aset positions1 symbol { pos2 with realized_pnl := realizedGet rtbl symbol + rlz }
          | none => positions1
        (positions2, rlz)

/-- The trailing realized-table update shared by both entry paths:
when the fill realized something, fold it into self._realized and refresh
the surviving position's realized_pnl. -/
def applyRealized (positions : List (String × Position)) (rtbl : List (String × ℚ))
    (symbol : String) (rlz : ℚ) : List (String × Position) × List (String × ℚ) :=
  if rlz ≠ 0 then
    let newr := realizedGet rtbl symbol + rlz
    let rtbl1 := aset rtbl symbol newr
    let positions1 :=
      match alookup positions symbol with
      | some pos => aset positions symbol { pos with realized_pnl := newr }
      | none => positions
    (positions1, rtbl1)
  else (positions, rtbl)

/-- The validation prefix of enter_position_long: everything the source
runs before its first state mutation.  Returns the data the fill needs. -/
def Portfolio.enter_long_checked (p : Portfolio) (stock : Stock) (quantity0 : ℚ)
    (index : Nat) : Except String (ℚ × Nat × Option String × ℚ × ℚ × ℚ × ℚ) :=
  let quantity := p.round_qty quantity0
  let meta := stock.trade_meta index
  let raw_price := stock.price meta.1
  match p.fill_price "buy" raw_price with
  | .error e => .error e
  | .ok price =>
    let notional := price * quantity
    let commission := p.compute_commission quantity notional
    let cost := notional + commission
    match p.check_order_common stock "buy" quantity meta.1 cost (-cost) with
    | some e => .error e
    | none => .ok (quantity, meta.1, meta.2, raw_price, price, commission, cost)

/-- portfolio.py Portfolio.enter_position_long.  The error component
carries the state at the raise point (the source raises only before
mutating). -/
def Portfolio.enter_position_long (p : Portfolio) (stock : Stock) (quantity0 : ℚ)
    (index : Nat) : Portfolio × Option String :=
  match p.enter_long_checked stock quantity0 index with
  | .error e => (p, some e)
  | .ok (quantity, trade_index, trade_time, raw_price, price, commission, cost) =>
    let symbol := stock.symbol.toUpper
    let upd := updateLongPositions p.positions p.realized symbol stock price quantity
    let fin := applyRealized upd.1 p.realized symbol upd.2
    let ev : TradeEvent :=
      { ttype := "long", stock := stock.symbol, quantity := quantity, price := raw_price,
        fill_price := price, amount := cost, commission := commission,
        realized_pnl := upd.2, index := trade_index, time := trade_time }
    let p1 := { p with
                positions := fin.1, realized := fin.2
                trade_log := p.trade_log ++ [ev], cash := p.cash - cost }
    let p2 := { p1 with equity_curve :=
      p1.equity_curve ++ [⟨p1.trade_log.length, p1.get_value trade_index⟩] }
    (p2, none)

/-- The validation prefix of enter_position_short (again, everything
before the source's first mutation; allow_short is checked before the
fill price is computed). -/
def Portfolio.enter_short_checked (p : Portfolio) (stock : Stock) (quantity0 : ℚ)
    (index : Nat) : Except String (ℚ × Nat × Option String × ℚ × ℚ × ℚ × ℚ) :=
  let quantity := p.round_qty quantity0
  let meta := stock.trade_meta index
  if p.allow_short = false then .error "Short selling is disabled" else
  let raw_price := stock.price meta.1
  match p.fill_price "sell" raw_price with
  | .error e => .error e
  | .ok price =>
    let notional := price * quantity
    let commission := p.compute_commission quantity notional
    let proceeds := notional - commission
    match p.check_order_common stock "sell" quantity meta.1 notional proceeds with
    | some e => .error e
    | none => .ok (quantity, meta.1, meta.2, raw_price, price, commission, proceeds)

/-- portfolio.py Portfolio.enter_position_short. -/
def Portfolio.enter_position_short (p : Portfolio) (stock : Stock) (quantity0 : ℚ)
    (index : Nat) : Portfolio × Option String :=
  match p.enter_short_checked stock quantity0 index with
  | .error e => (p, some e)
  | .ok (quantity, trade_index, trade_time, raw_price, price, commission, proceeds) =>
    let symbol := stock.symbol.toUpper
    let upd := updateShortPositions p.positions p.realized symbol stock price quantity
    let fin := applyRealized upd.1 p.realized symbol upd.2
    let ev : TradeEvent :=
      { ttype := "short", stock := stock.symbol, quantity := quantity, price := raw_price,
        fill_price := price, amount := proceeds, commission := commission,
        realized_pnl := upd.2, index := trade_index, time := trade_time }
    let p1 := { p with
                positions := fin.1, realized := fin.2
                trade_log := p.trade_log ++ [ev], cash := p.cash + proceeds }
    let p2 := { p1 with equity_curve :=
      p1.equity_curve ++ [⟨p1.trade_log.length, p1.get_value trade_index⟩] }
    (p2, none)

/-- The validation prefix of exit_position (checks in source order:
rounded quantity positive, position exists, within position size, then
the fill price whose slippage validation can still raise). -/
def Portfolio.exit_checked (p : Portfolio) (stock : Stock) (quantity0 : ℚ)
    (index : Nat) : Except String (ℚ × Nat × Option String × Position × ℚ × ℚ) :=
  let quantity := p.round_qty quantity0
  let meta := stock.trade_meta index
  if quantity ≤ 0 then .error "Quantity must be positive" else
  match alookup p.positions stock.symbol.toUpper with
  | none => .error "Stock not found in portfolio"
  | some pos =>
    if |pos.quantity| < quantity then .error "Quantity exceeds position size" else
    let raw_price := stock.price meta.1
    match p.fill_price (if 0 < pos.quantity then "sell" else "buy") raw_price with
    | .error e => .error e
    | .ok fill => .ok (quantity, meta.1, meta.2, pos, raw_price, fill)

/-- portfolio.py Portfolio.exit_position. -/
def Portfolio.exit_position (p : Portfolio) (stock : Stock) (quantity0 : ℚ)
    (index : Nat) : Portfolio × Option String :=
  match p.exit_checked stock quantity0 index with
  | .error e => (p, some e)
  | .ok (quantity, trade_index, trade_time, pos, raw_price, fill) =>
    let symbol := stock.symbol.toUpper
    let qty0 := pos.quantity
    let avg0 := pos.avg_price
    let notional := fill * quantity
    let commission := p.compute_commission quantity notional
    let amount := if 0 < qty0 then notional - commission else -(notional + commission)
    let rlz := if 0 < qty0 then (fill - avg0) * quantity - commission
               else (avg0 - fill) * quantity - commission
    let new_qty := if 0 < qty0 then qty0 - quantity else qty0 + quantity
    let newr := realizedGet p.realized symbol + rlz
    let positions1 := aset p.positions symbol
      { pos with stock := stock, quantity := new_qty, realized_pnl := newr }
    let positions2 := if new_qty = 0 then aerase positions1 symbol else positions1
    let ev : TradeEvent :=
      { ttype := "exit", stock := stock.symbol, quantity := quantity, price := raw_price,
        fill_price := fill, amount := amount, commission := commission,
        realized_pnl := rlz, index := trade_index, time := trade_time }
    let p1 := { p with
                positions := positions2, realized := aset p.realized symbol newr
                cash := p.cash + amount, trade_log := p.trade_log ++ [ev] }
    let p2 := { p1 with equity_curve :=
      p1.equity_curve ++ [⟨p1.trade_log.length, p1.get_value trade_index⟩] }
    (p2, none)

/-- portfolio.py Portfolio.add_cash. -/
def Portfolio.add_cash (p : Portfolio) (amount : ℚ) : Portfolio :=
  { p with cash := p.cash + amount }

/-- portfolio.py Portfolio.clear_history. -/
def Portfolio.clear_history (p : Portfolio) (initial_cash : ℚ) : Portfolio :=
  { p with
    positions := [], realized := [], cash := initial_cash
    trade_log := [], equity_curve := [] }

/-! ### Concrete fixtures -/

set_option maxRecDepth 100000

/-- A one-bar series whose close is 10 (spec scenario 2). -/
def stockTen : Stock := ⟨"TST", ["2024-01-02"], [⟨10, 10, 10, 10⟩]⟩

/-- Portfolio with cash 1000 and the source defaults: allow_short true,
short_margin_requirement 1.5, no slippage, no commission. -/
def pShort0 : Portfolio := { cash := 1000 }

/-- State after shorting 50 at bar 0. -/
def pShort1 : Portfolio := (pShort0.enter_position_short stockTen 50 0).1

/-- Portfolio configured for whole shares (share_min_pct = 100). -/
def pWhole : Portfolio := { cash := 1000, share_min_pct := 100 }

/-- A two-bar series for driver and merge fixtures. -/
def stockTwo : Stock := ⟨"TSTB", ["2024-01-02", "2024-01-03"], [⟨1, 2, 3, 4⟩, ⟨5, 6, 7, 8⟩]⟩

/-- One observed strategy-hook call. -/
inductive HookEv where
  | hstart (b : Bar)
  | hupdate (o h l c : ℚ) (i : Nat)
  | hstop (b : Bar)
deriving Repr, DecidableEq

/-- A strategy as a state machine (strategy.py start/update/end hooks,
with end rendered as stop). -/
structure StratM (σ : Type) where
  start : σ → Bar → σ
  update : σ → ℚ → ℚ → ℚ → ℚ → Nat → σ
  stop : σ → Bar → σ

/-- backtest.py Backtest.run: resolve both dates through to_iloc, return
immediately when start is past end, otherwise call start on the candle at
the start date, update once per bar in ascending order, and end on the
candle at the end date. -/
def backtestRun {σ : Type} (strat : StratM σ) (stock : Stock) (st0 : σ)
    (start_date end_date : StockIdx) : σ :=
  let start_iloc := stock.to_iloc start_date
  let end_iloc := stock.to_iloc end_date
  if end_iloc < start_iloc then st0
  else
    let st1 := strat.start st0 (stock.get_candle start_date)
    let st2 := (List.range' start_iloc (end_iloc + 1 - start_iloc)).foldl
      (fun st i =>
        let b := stock.get_candle (.nat i)
        strat.update st b.o b.h b.l b.c i) st1
    strat.stop st2 (stock.get_candle end_date)

/-- A strategy instance that records every hook call. -/
def recorderStrat : StratM (List HookEv) where
  start := fun st b => st ++ [.hstart b]
  update := fun st o h l c i => st ++ [.hupdate o h l c i]
  stop := fun st b => st ++ [.hstop b]

/-- The update event the driver emits for bar i. -/
def updEv (stock : Stock) (i : Nat) : HookEv :=
  HookEv.hupdate (stock.get_candle (.nat i)).o (stock.get_candle (.nat i)).h
    (stock.get_candle (.nat i)).l (stock.get_candle (.nat i)).c i

/-- The cash effect of one trade-log entry: longs debit their cost,
shorts credit their proceeds, exits credit their (signed) amount. -/
def tradeCashChange (t : TradeEvent) : ℚ :=
  if t.ttype = "long" then -t.amount else t.amount

/-- Portfolio states reachable from clear_history(init) by n successful
fills (the only mutations the claim considers). -/
inductive Reachable (init : ℚ) (p0 : Portfolio) : Nat → Portfolio → Prop
  | base : Reachable init p0 0 (p0.clear_history init)
  | fill_long {n : Nat} {p p' : Portfolio} (s : Stock) (q : ℚ) (i : Nat) :
      Reachable init p0 n p → p.enter_position_long s q i = (p', none) →
      Reachable init p0 (n + 1) p'
  | fill_short {n : Nat} {p p' : Portfolio} (s : Stock) (q : ℚ) (i : Nat) :
      Reachable init p0 n p → p.enter_position_short s q i = (p', none) →
      Reachable init p0 (n + 1) p'
  | fill_exit {n : Nat} {p p' : Portfolio} (s : Stock) (q : ℚ) (i : Nat) :
      Reachable init p0 n p → p.exit_position s q i = (p', none) →
      Reachable init p0 (n + 1) p'

/-- What one successful fill does to the bookkeeping state: exactly one
trade event whose cash change is applied, and exactly one equity point
whose index is the new trade-log length. -/
def FillShape (p p' : Portfolio) : Prop :=
  ∃ ev pt, p'.cash = p.cash + tradeCashChange ev ∧
    p'.trade_log = p.trade_log ++ [ev] ∧
    p'.equity_curve = p.equity_curve ++ [pt] ∧
    pt.i = p.trade_log.length + 1

/-- The bookkeeping invariant after n fills since clear_history(init):
cash reconciles exactly against the trade log, the equity curve has one
point per fill, and point k carries index k+1 (the trade-log length when
it was appended). -/
def Bookkept (init : ℚ) (n : Nat) (p : Portfolio) : Prop :=
  p.cash = init + (p.trade_log.map tradeCashChange).sum ∧
  p.trade_log.length = n ∧
  p.equity_curve.length = n ∧
  p.equity_curve.map (fun pt => pt.i) = (List.range n).map (fun k => k + 1)

/-- A two-bar series with closes 10 and 10.02 for the exit fixture. -/
def stockC6 : Stock :=
  ⟨"CMM", ["2024-01-02", "2024-01-03"],
   [⟨10, 10, 10, 10⟩, ⟨501 / 50, 501 / 50, 501 / 50, 501 / 50⟩]⟩

/-- Portfolio with a 5 percent commission. -/
def pC6 : Portfolio := { cash := 1000, commission := 1 / 20 }

/-- After buying one share at close 10 (basis 10, cost 10.5). -/
def pC6a : Portfolio := (pC6.enter_position_long stockC6 1 0).1

/-- After exiting that share at close 10.02. -/
def pC6b : Portfolio := (pC6a.exit_position stockC6 1 1).1

/-- One row of analytics.py compute_symbol_breakdown. -/
structure SymRec where
  symbol : String
  trades : Nat
  exits : Nat
  net_realized : ℚ
deriving Repr, DecidableEq

/-- The per-trade group update of compute_symbol_breakdown: bump the
trade count and, on exit rows, the exit count and net realized P&L. -/
def csbNew (rec0 : SymRec) (t : TradeEvent) : SymRec :=
  let r1 := { rec0 with trades := rec0.trades + 1 }
  if t.ttype.toLower = "exit"
    then { r1 with exits := r1.exits + 1, net_realized := r1.net_realized + t.realized_pnl }
    else r1

/-- The fold body of compute_symbol_breakdown (analytics.py lines
227-236): group by uppercased symbol, skip empty symbols, setdefault the
group record, and apply the per-trade update in place. -/
def csbFold (acc : List (String × SymRec)) (t : TradeEvent) : List (String × SymRec) :=
  let sym := t.stock.toUpper
  if sym = "" then acc
  else
    let rec0 := match alookup acc sym with
      | some r => r
      | none => ⟨sym, 0, 0, 0⟩
    aset acc sym (csbNew rec0 t)

/-- The ascending sort key of compute_symbol_breakdown: the Python tuple
order (net_realized, symbol). -/
def csbKey (a b : SymRec) : Prop :=
  a.net_realized < b.net_realized ∨
    (a.net_realized = b.net_realized ∧ a.symbol ≤ b.symbol)

instance : DecidableRel csbKey := fun a b => by
  unfold csbKey
  infer_instance

instance : IsTotal SymRec csbKey := by
  constructor
  intro a b
  rcases lt_trichotomy a.net_realized b.net_realized with h | h | h
  · exact Or.inl (Or.inl h)
  · rcases le_total a.symbol b.symbol with hs | hs
    · exact Or.inl (Or.inr ⟨h, hs⟩)
    · exact Or.inr (Or.inr ⟨h.symm, hs⟩)
  · exact Or.inr (Or.inl h)

instance : IsTrans SymRec csbKey := by
  constructor
  intro a b c hab hbc
  rcases hab with h1 | ⟨h1, h1s⟩ <;> rcases hbc with h2 | ⟨h2, h2s⟩
  · exact Or.inl (h1.trans h2)
  · exact Or.inl (h2 ▸ h1)
  · exact Or.inl (h1 ▸ h2)
  · exact Or.inr ⟨h1.trans h2, h1s.trans h2s⟩

/-- analytics.py compute_symbol_breakdown: fold, take the group values,
sort ascending by (net_realized, symbol), reverse. -/
def compute_symbol_breakdown (tl : List TradeEvent) : List SymRec :=
  (List.insertionSort csbKey ((tl.foldl csbFold []).map Prod.snd)).reverse

/-- Number of trades carrying (uppercased) symbol s. -/
def tradesCount (tl : List TradeEvent) (s : String) : Nat :=
  (tl.filter (fun t => decide (t.stock.toUpper = s))).length

/-- Number of exit trades carrying symbol s. -/
def exitsCount (tl : List TradeEvent) (s : String) : Nat :=
  (tl.filter (fun t => decide (t.stock.toUpper = s) && decide (t.ttype.toLower = "exit"))).length

/-- Net realized P&L over the exit trades carrying symbol s. -/
def netRealized (tl : List TradeEvent) (s : String) : ℚ :=
  ((tl.filter (fun t => decide (t.stock.toUpper = s) && decide (t.ttype.toLower = "exit"))).map
    (fun t => t.realized_pnl)).sum

/-- A group record extended by the counts contributed by a further
stretch of the trade log. -/
def addCounts (r : SymRec) (tl : List TradeEvent) (s : String) : SymRec :=
  ⟨r.symbol, r.trades + tradesCount tl s, r.exits + exitsCount tl s,
   r.net_realized + netRealized tl s⟩

/-- One merged equity-curve point of the run_strategy endpoint
(api.py), carrying an index, a combined value and an optional date. -/
structure EqPoint3 where
  i : Nat
  v : ℚ
  time : Option String
deriving Repr, DecidableEq

/-- The date attached to a symbol's j-th equity point when streaming
merge events (api.py line 704): the start date for j = 0, else the time
of trade j-1 when present. -/
def eventTime (start_date : String) (tl : List TradeEvent) (j : Nat) : Option String :=
  if j = 0 then some start_date
  else match tl.get? (j - 1) with
    | some tr => tr.time
    | none => none

/-- The (date, symbol_idx, value) events contributed by one symbol's
equity curve; points whose date is missing or empty are dropped
(api.py lines 703-706). -/
def symbolEvents (start_date : String) (pidx : Nat) (ec : List EquityPoint)
    (tl : List TradeEvent) : List (String × Nat × ℚ) :=
  ec.enum.filterMap (fun jp =>
    match eventTime start_date tl jp.1 with
    | none => none
    | some t => if t = "" then none else some (t, pidx, jp.2.v))

/-- All merge events over the per-symbol (equity curve, trade log)
pairs, symbols enumerated in order. -/
def mergeEvents (start_date : String)
    (pecs : List (List EquityPoint × List TradeEvent)) : List (String × Nat × ℚ) :=
  (pecs.enum.map (fun pec => symbolEvents start_date pec.1 pec.2.1 pec.2.2)).foldr
    (fun l acc => l ++ acc) []

/-- The Python sort key (date, symbol_idx) of api.py line 707, as a
total preorder for the stable insertion sort. -/
def evKey (a b : String × Nat × ℚ) : Prop :=
  a.1 < b.1 ∨ (a.1 = b.1 ∧ a.2.1 ≤ b.2.1)

instance : DecidableRel evKey := fun a b => by
  unfold evKey
  infer_instance

/-- The merge loop of api.py lines 711-716: update the per-symbol
last-known value, and append one combined point per date, keeping the
FIRST combined value seen for each date. -/
def mergeLoop : List (String × Nat × ℚ) → List ℚ → List String → List EqPoint3 → List EqPoint3
  | [], _, _, out => out
  | (t, pidx, v) :: rest, current, seen, out =>
    let current2 := current.set pidx v
    let combined := current2.sum
    if t ∈ seen then mergeLoop rest current2 seen out
    else mergeLoop rest current2 (t :: seen) (out ++ [⟨out.length, combined, some t⟩])

/-- api.py lines 700-716: the multi-symbol merged equity curve. -/
def mergeEquityMulti (start_date : String) (initial : ℚ)
    (pecs : List (List EquityPoint × List TradeEvent)) : List EqPoint3 :=
  let events := List.insertionSort evKey (mergeEvents start_date pecs)
  let current := pecs.map (fun pec => match pec.1 with
    | [] => 0
    | p :: _ => p.v)
  mergeLoop events current [] [⟨0, initial, none⟩]

/-- First-occurrence deduplication of a date stream against an initial
seen set, mirroring the seen_times set of the merge loop. -/
def firstDedup : List String → List String → List String
  | [], _ => []
  | t :: rest, seen =>
    if t ∈ seen then firstDedup rest seen
    else t :: firstDedup rest (t :: seen)

/-- The C8 scenario: symbol A with post-trade equity 520 then 515 and
trades dated Jan 5 and Jan 10, symbol B with post-trade equity 490 and
one trade dated Jan 7. -/
def pecsC8 : List (List EquityPoint × List TradeEvent) :=
  [([⟨1, 520⟩, ⟨2, 515⟩],
    [⟨"long", "A", 1, 10, 10, 10, 0, 0, 0, some "2024-01-05"⟩,
     ⟨"exit", "A", 1, 10, 10, 10, 0, 0, 0, some "2024-01-10"⟩]),
   ([⟨1, 490⟩],
    [⟨"long", "B", 1, 10, 10, 10, 0, 0, 0, some "2024-01-07"⟩])]

/-- Every attribute defined on the Python Portfolio class: the instance
attributes assigned in __init__ (portfolio.py lines 5-26) and the
methods of the class body.  Python attribute lookup on a Portfolio
object succeeds exactly for these names. -/
def portfolioAttrNames : List String :=
  ["_positions", "_realized", "cash", "slippage", "share_min_pct", "commission",
   "commission_per_order", "commission_per_share", "allow_short", "max_positions",
   "max_position_pct", "min_cash_reserve_pct", "min_trade_value", "max_trade_value",
   "max_order_qty", "short_margin_requirement", "trade_log", "equity_curve",
   "_trade_meta", "_append_equity", "stocks", "get_position", "positions",
   "_round_qty", "_slippage_factor", "_fill_price", "_compute_commission",
   "estimate_fill_price", "estimate_buy_cost", "estimate_sell_proceeds",
   "max_affordable_buy", "_positions_view", "get_short_market_value",
   "get_reserved_cash", "get_buying_power", "_reserved_cash_projected",
   "_check_order_common", "enter_position_long", "enter_position_short",
   "exit_position", "get_value", "add_cash", "restore_from_state",
   "set_slippage", "set_share_min_pct", "set_commission", "set_commission_per_order",
   "set_commission_per_share", "set_allow_short", "set_short_margin_requirement",
   "set_constraints", "clear_history"]

/-- Python getattr on a Portfolio object: ok for defined attributes,
AttributeError otherwise. -/
def portfolioGetattr (name : String) : Except String Unit :=
  if portfolioAttrNames.contains name then Except.ok ()
  else Except.error ("AttributeError: Portfolio object has no attribute " ++ name)

/-- The method calls issued on the fresh portfolio of each per-symbol
leg of run_strategy_endpoint, in source order (api.py lines 590-598):
add_cash, then the seven settings setters, then set_constraints via
_apply_portfolio_constraints. -/
def legSetterCalls : List String :=
  ["add_cash", "set_slippage", "set_slippage_bps", "set_commission",
   "set_commission_per_order", "set_commission_per_share", "set_allow_short",
   "set_short_margin_requirement", "set_constraints"]

/-- Resolve each method call in order; the first undefined attribute
raises. -/
def applySettingsCalls : List String → Except String Unit
  | [] => Except.ok ()
  | n :: rest => do
      let _ ← portfolioGetattr n
      applySettingsCalls rest

/-- One entry of the results list of run_strategy_endpoint: either the
success record with start value, end value and P&L, or an error
record. -/
structure SymbolLegResult where
  symbol : String
  error : Option String
  start_value : Option ℚ
  end_value : Option ℚ
  pnl : Option ℚ
deriving Repr, DecidableEq

/-- One per-symbol leg of run_strategy_endpoint (api.py lines 587-665):
build and configure the portfolio, then run the remaining work (stock
lookup, strategy instantiation, backtest, valuation, abstracted as rest,
returning the end value); any exception is caught and recorded as an
error entry for the symbol. -/
def runSymbolLeg (symbol : String) (cash_per_symbol : ℚ)
    (rest : Unit → Except String ℚ) : SymbolLegResult :=
  match (do
      let _ ← applySettingsCalls legSetterCalls
      rest ()) with
  | Except.ok end_val =>
    ⟨symbol, none, some cash_per_symbol, some end_val, some (end_val - cash_per_symbol)⟩
  | Except.error e => ⟨symbol, some e, none, none, none⟩

/-- C2: with cash 1000, allow_short, margin requirement 1.5 and close 10,
shorting 50 at bar 0 is admitted and leaves cash 1500, short market value
500, reserved cash 750 and buying power 750; from there shorting another
100 is admitted while shorting 200 raises the insufficient-buying-power
validation failure. -/
theorem C2_short_margin_scenario :
    (pShort0.enter_position_short stockTen 50 0).2 = none ∧
    pShort1.cash = 1500 ∧
    pShort1.get_short_market_value 0 = 500 ∧
    pShort1.get_reserved_cash 0 = 750 ∧
    pShort1.get_buying_power 0 = 750 ∧
    (pShort1.enter_position_short stockTen 100 0).2 = none ∧
    (pShort1.enter_position_short stockTen 200 0).2 =
      some "Insufficient buying power (margin)" := by
  with_unfolding_all decide

/-- C3 counterexample: C3 is falsified at quantity 2.5 with whole shares: the claim's
half-away-from-zero rule demands 3, but the code uses Python round
(ties to even) and yields 2.  Likewise 0.5 yields 0, not 1. -/
theorem C3_counterexample_ties_to_even :
    pWhole.round_qty (5 / 2) = 2 ∧ (2 : ℚ) ≠ 3 ∧
    pWhole.round_qty (1 / 2) = 0 ∧ (0 : ℚ) ≠ 1 := by
  with_unfolding_all decide

/-- Python round is a nearest integer: it never strays more than a half. -/
lemma abs_sub_roundHalfEven_le (q : ℚ) : |q - (roundHalfEven q : ℚ)| ≤ 1 / 2 := by
  have h0 : (⌊q⌋ : ℚ) ≤ q := Int.floor_le q
  have h1 : q < ⌊q⌋ + 1 := Int.lt_floor_add_one q
  unfold roundHalfEven
  split_ifs with ha hb hc
  · rw [abs_le]; constructor <;> linarith
  · rw [abs_le]; push_cast; constructor <;> linarith
  · rw [abs_le]; constructor <;> linarith [not_lt.mp ha, not_lt.mp hb]
  · rw [abs_le]; push_cast; constructor <;> linarith [not_lt.mp ha, not_lt.mp hb]

/-- Python round sends exact halves to the even neighbour. -/
lemma roundHalfEven_tie_even (q : ℚ) (h : |q - (roundHalfEven q : ℚ)| = 1 / 2) :
    roundHalfEven q % 2 = 0 := by
  have h0 : (⌊q⌋ : ℚ) ≤ q := Int.floor_le q
  have h1 : q < ⌊q⌋ + 1 := Int.lt_floor_add_one q
  unfold roundHalfEven at h ⊢
  split_ifs at h ⊢ with ha hb hc
  · exfalso
    rw [abs_of_nonneg (by linarith)] at h
    linarith
  · exfalso
    rw [abs_of_nonpos (by push_cast; linarith)] at h
    push_cast at h
    linarith
  · exact hc
  · omega

/-- Python round fixes integers. -/
lemma roundHalfEven_intCast (k : ℤ) : roundHalfEven (k : ℚ) = k := by
  unfold roundHalfEven
  rw [Int.floor_intCast]
  norm_num

/-- round(x, 2) is the identity on values that are integer hundredths. -/
lemma round2_eq_self (x : ℚ) (k : ℤ) (h : x * 100 = (k : ℚ)) : round2 x = x := by
  unfold round2
  rw [h, roundHalfEven_intCast, ← h, mul_div_assoc]
  norm_num

/-- Rounding q·c to an integer and scaling back stays within 1/(2c). -/
lemma abs_sub_round_scaled_le (q c : ℚ) (hc : 0 < c) :
    |q - (roundHalfEven (q * c) : ℚ) / c| ≤ 1 / (2 * c) := by
  have h := abs_sub_roundHalfEven_le (q * c)
  have e : q - (roundHalfEven (q * c) : ℚ) / c
      = (q * c - (roundHalfEven (q * c) : ℚ)) / c := by
    field_simp
  rw [e, abs_div, abs_of_pos hc, div_le_div_iff₀ hc (by positivity)]
  nlinarith [abs_nonneg (q * c - (roundHalfEven (q * c) : ℚ))]

/-- C3 amended: for the supported increments (share_min_pct in
{100, 10, 1}) the order quantity is rounded, before any admission check,
to the nearest multiple of share_min_pct/100 shares using Python round
(nearest, ties to even, characterized by the first two conjuncts) rather
than half-away-from-zero; a quantity that is nonpositive after rounding
is rejected with the quantity validation failure; with share_min_pct=10,
0.14 rounds to 0.1 and 0.16 to 0.2, and 0.0 is rejected; with whole
shares, 0.5 rounds to 0 and 2.5 to 2. -/
theorem C3_amended_round_ties_to_even :
    (∀ q : ℚ, |q - (roundHalfEven q : ℚ)| ≤ 1 / 2) ∧
    (∀ q : ℚ, |q - (roundHalfEven q : ℚ)| = 1 / 2 → roundHalfEven q % 2 = 0) ∧
    (∀ (p : Portfolio) (q : ℚ),
        p.share_min_pct = 100 ∨ p.share_min_pct = 10 ∨ p.share_min_pct = 1 →
        p.round_qty q =
          (roundHalfEven (q * (100 / p.share_min_pct)) : ℚ) / (100 / p.share_min_pct) ∧
        |q - p.round_qty q| ≤ p.share_min_pct / 200) ∧
    (∀ (p : Portfolio) (stock : Stock) (q : ℚ) (i : Nat),
        0 ≤ p.slippage → p.slippage < 1 → p.round_qty q ≤ 0 →
        (p.enter_position_long stock q i).2 = some "Quantity must be positive") ∧
    pShort0.round_qty (14 / 100) = 1 / 10 ∧
    pShort0.round_qty (16 / 100) = 2 / 10 ∧
    pWhole.round_qty (1 / 2) = 0 ∧ pWhole.round_qty (5 / 2) = 2 ∧
    (pShort0.enter_position_long stockTen 0 0).2 = some "Quantity must be positive" := by
  refine ⟨abs_sub_roundHalfEven_le, roundHalfEven_tie_even, ?_, ?_, ?_⟩
  · intro p q h
    rcases h with h | h | h
    · have e : p.round_qty q =
          (roundHalfEven (q * (100 / p.share_min_pct)) : ℚ) / (100 / p.share_min_pct) := by
        unfold Portfolio.round_qty
        rw [h]
        norm_num
      refine ⟨e, ?_⟩
      rw [e, h]
      calc |q - (roundHalfEven (q * (100 / 100)) : ℚ) / (100 / 100)| ≤ 1 / (2 * (100 / 100)) :=
            abs_sub_round_scaled_le q (100 / 100) (by norm_num)
      _ ≤ 100 / 200 := by norm_num
    · have e : p.round_qty q =
          (roundHalfEven (q * (100 / p.share_min_pct)) : ℚ) / (100 / p.share_min_pct) := by
        unfold Portfolio.round_qty
        rw [h]
        norm_num
        have e1 : q / (1 / 10) = q * 10 := by ring
        rw [e1]
        have e3 : ((roundHalfEven (q * 10) : ℚ) * (1 / 10)) * 100
            = ((10 * roundHalfEven (q * 10) : ℤ) : ℚ) := by
          push_cast
          ring
        rw [round2_eq_self _ _ e3]
        ring
      refine ⟨e, ?_⟩
      rw [e, h]
      calc |q - (roundHalfEven (q * (100 / 10)) : ℚ) / (100 / 10)| ≤ 1 / (2 * (100 / 10)) :=
            abs_sub_round_scaled_le q (100 / 10) (by norm_num)
      _ ≤ 10 / 200 := by norm_num
    · have e : p.round_qty q =
          (roundHalfEven (q * (100 / p.share_min_pct)) : ℚ) / (100 / p.share_min_pct) := by
        unfold Portfolio.round_qty
        rw [h]
        norm_num
        have e1 : q / (1 / 100) = q * 100 := by ring
        rw [e1]
        have e3 : ((roundHalfEven (q * 100) : ℚ) * (1 / 100)) * 100
            = ((roundHalfEven (q * 100) : ℤ) : ℚ) := by
          ring
        rw [round2_eq_self _ _ e3]
        ring
      refine ⟨e, ?_⟩
      rw [e, h]
      calc |q - (roundHalfEven (q * (100 / 1)) : ℚ) / (100 / 1)| ≤ 1 / (2 * (100 / 1)) :=
            abs_sub_round_scaled_le q (100 / 1) (by norm_num)
      _ ≤ 1 / 200 := by norm_num
  · intro p stock q i hs0 hs1 hq
    have hno : ¬(p.slippage < 0 ∨ 1 ≤ p.slippage) := by
      push_neg
      exact ⟨hs0, hs1⟩
    simp only [Portfolio.enter_position_long, Portfolio.enter_long_checked,
      Portfolio.fill_price, Portfolio.slippage_factor, if_neg hno,
      Portfolio.check_order_common, if_pos hq, if_pos rfl]
    rfl
  · refine ⟨?_, ?_, ?_, ?_, ?_⟩ <;> with_unfolding_all decide

/-- C3 amended witness: the rounding characterization applied at whole
shares to 2.5 (giving 2) and the rejection branch applied to a zero
quantity with the default portfolio. -/
theorem C3_amended_round_ties_to_even_witness :
    pWhole.round_qty (5 / 2) =
      (roundHalfEven ((5 / 2) * (100 / pWhole.share_min_pct)) : ℚ) / (100 / pWhole.share_min_pct) ∧
    (pShort0.enter_position_long stockTen 0 0).2 = some "Quantity must be positive" :=
  ⟨(C3_amended_round_ties_to_even.2.2.1 pWhole (5 / 2)
      (Or.inl (by with_unfolding_all decide))).1,
   C3_amended_round_ties_to_even.2.2.2.1 pShort0 stockTen 0 0
      (by with_unfolding_all decide) (by with_unfolding_all decide)
      (by with_unfolding_all decide)⟩

lemma foldl_append_map {α β : Type} (f : α → β) :
    ∀ (l : List α) (st : List β),
      l.foldl (fun s a => s ++ [f a]) st = st ++ l.map f
  | [], st => by simp
  | a :: l, st => by simp [foldl_append_map f l]

lemma to_iloc_le (s : Stock) (idx : StockIdx) : s.to_iloc idx ≤ s.size - 1 := by
  cases idx <;> simp [Stock.to_iloc, Stock.to_iloc_nat, Stock.to_iloc_date]

lemma get_candle_to_iloc (s : Stock) (idx : StockIdx) :
    s.get_candle (.nat (s.to_iloc idx)) = s.get_candle idx := by
  have e : s.to_iloc (.nat (s.to_iloc idx)) = s.to_iloc idx := by
    show min (s.to_iloc idx) (s.size - 1) = s.to_iloc idx
    exact Nat.min_eq_left (to_iloc_le s idx)
  unfold Stock.get_candle
  rw [e]

/-- C7: the driver resolves both dates through to_iloc; when the start
index exceeds the end index it returns with no hook called at all (for
an arbitrary strategy over an arbitrary state, hence also no trades);
otherwise the recorded hook trace is exactly start on the candle at the
start index, one update per bar index in ascending order, and end on the
candle at the end index; when the two indices coincide the trace is
start, a single update, end. -/
theorem C7_backtest_driver (σ : Type) (strat : StratM σ) (st : σ) (stock : Stock)
    (sd ed : StockIdx) (init : List HookEv) :
    (stock.to_iloc ed < stock.to_iloc sd → backtestRun strat stock st sd ed = st) ∧
    (stock.to_iloc sd ≤ stock.to_iloc ed →
      backtestRun recorderStrat stock init sd ed =
        init ++ [HookEv.hstart (stock.get_candle (.nat (stock.to_iloc sd)))]
          ++ (List.range' (stock.to_iloc sd)
                (stock.to_iloc ed + 1 - stock.to_iloc sd)).map (updEv stock)
          ++ [HookEv.hstop (stock.get_candle (.nat (stock.to_iloc ed)))]) ∧
    (stock.to_iloc sd = stock.to_iloc ed →
      backtestRun recorderStrat stock init sd ed =
        init ++ [HookEv.hstart (stock.get_candle (.nat (stock.to_iloc sd))),
                 updEv stock (stock.to_iloc sd),
                 HookEv.hstop (stock.get_candle (.nat (stock.to_iloc ed)))]) := by
  have main : stock.to_iloc sd ≤ stock.to_iloc ed →
      backtestRun recorderStrat stock init sd ed =
        init ++ [HookEv.hstart (stock.get_candle (.nat (stock.to_iloc sd)))]
          ++ (List.range' (stock.to_iloc sd)
                (stock.to_iloc ed + 1 - stock.to_iloc sd)).map (updEv stock)
          ++ [HookEv.hstop (stock.get_candle (.nat (stock.to_iloc ed)))] := by
    intro h
    unfold backtestRun
    rw [if_neg (not_lt.mpr h)]
    simp only [recorderStrat]
    rw [show (fun (st : List HookEv) (i : Nat) =>
          let b := stock.get_candle (.nat i)
          st ++ [HookEv.hupdate b.o b.h b.l b.c i])
        = (fun st i => st ++ [updEv stock i]) from rfl]
    rw [foldl_append_map (updEv stock)]
    rw [get_candle_to_iloc, get_candle_to_iloc]
  refine ⟨?_, main, ?_⟩
  · intro h
    unfold backtestRun
    rw [if_pos h]
  · intro h
    have e := main (le_of_eq h)
    rw [e, ← h]
    simp [List.range']

/-- C7 witness: on the two-bar fixture the run from bar 0 to bar 1
records start, two updates, end. -/
theorem C7_backtest_driver_witness :
    backtestRun recorderStrat stockTwo [] (.nat 0) (.nat 1) =
      [] ++ [HookEv.hstart (stockTwo.get_candle (.nat (stockTwo.to_iloc (.nat 0))))]
        ++ (List.range' (stockTwo.to_iloc (.nat 0))
              (stockTwo.to_iloc (.nat 1) + 1 - stockTwo.to_iloc (.nat 0))).map (updEv stockTwo)
        ++ [HookEv.hstop (stockTwo.get_candle (.nat (stockTwo.to_iloc (.nat 1))))] :=
  (C7_backtest_driver (List HookEv) recorderStrat [] stockTwo (.nat 0) (.nat 1) []).2.1
    (by with_unfolding_all decide)

lemma alookup_eq_none_of_not_mem {α : Type} (l : List (String × α)) (k : String)
    (h : k ∉ l.map Prod.fst) : alookup l k = none := by
  induction l with
  | nil => rfl
  | cons kv rest ih =>
    simp only [List.map_cons, List.mem_cons, not_or] at h
    simp only [alookup]
    rw [if_neg (fun e => h.1 e.symm)]
    exact ih h.2

lemma alookup_aset_self {α : Type} (l : List (String × α)) (k : String) (v : α) :
    alookup (aset l k v) k = some v := by
  induction l with
  | nil => simp [aset, alookup]
  | cons kv rest ih =>
    by_cases h : kv.1 = k
    · simp [aset, h, alookup]
    · simp [aset, h, alookup, ih]

lemma alookup_aset_ne {α : Type} (l : List (String × α)) (k k' : String) (v : α)
    (h : k' ≠ k) : alookup (aset l k v) k' = alookup l k' := by
  induction l with
  | nil =>
    simp only [aset, alookup]
    rw [if_neg (fun e => h e.symm)]
  | cons kv rest ih =>
    by_cases hk : kv.1 = k
    · simp only [aset, if_pos hk, alookup]
      rw [if_neg (fun e => h e.symm), if_neg (fun e => h (hk.symm.trans e).symm)]
    · simp only [aset, if_neg hk, alookup, ih]

lemma alookup_aerase_self {α : Type} (l : List (String × α)) (k : String)
    (hnd : (l.map Prod.fst).Nodup) : alookup (aerase l k) k = none := by
  induction l with
  | nil => rfl
  | cons kv rest ih =>
    simp only [List.map_cons, List.nodup_cons] at hnd
    by_cases h : kv.1 = k
    · simp only [aerase, if_pos h]
      exact alookup_eq_none_of_not_mem rest k (h ▸ hnd.1)
    · simp only [aerase, if_neg h, alookup]
      exact ih hnd.2

lemma alookup_aerase_ne {α : Type} (l : List (String × α)) (k k' : String)
    (h : k' ≠ k) : alookup (aerase l k) k' = alookup l k' := by
  induction l with
  | nil => rfl
  | cons kv rest ih =>
    by_cases hk : kv.1 = k
    · simp only [aerase, if_pos hk, alookup]
      rw [if_neg (fun e => h (hk.symm.trans e).symm)]
    · simp only [aerase, if_neg hk, alookup, ih]

lemma enter_long_success (p : Portfolio) (s : Stock) (q : ℚ) (i : Nat) (p' : Portfolio)
    (h : p.enter_position_long s q i = (p', none)) : FillShape p p' := by
  unfold Portfolio.enter_position_long at h
  cases hc : p.enter_long_checked s q i with
  | error e =>
    rw [hc] at h
    simp at h
  | ok v =>
    obtain ⟨quantity, trade_index, trade_time, raw_price, price, commission, cost⟩ := v
    rw [hc] at h
    rw [Prod.mk.injEq] at h
    obtain ⟨hp, -⟩ := h
    subst hp
    refine ⟨_, _, ?_, rfl, rfl, ?_⟩
    · simp [tradeCashChange]
      ring
    · simp

lemma enter_short_success (p : Portfolio) (s : Stock) (q : ℚ) (i : Nat) (p' : Portfolio)
    (h : p.enter_position_short s q i = (p', none)) : FillShape p p' := by
  unfold Portfolio.enter_position_short at h
  cases hc : p.enter_short_checked s q i with
  | error e =>
    rw [hc] at h
    simp at h
  | ok v =>
    obtain ⟨quantity, trade_index, trade_time, raw_price, price, commission, proceeds⟩ := v
    rw [hc] at h
    rw [Prod.mk.injEq] at h
    obtain ⟨hp, -⟩ := h
    subst hp
    refine ⟨_, _, ?_, rfl, rfl, ?_⟩
    · simp [tradeCashChange]
    · simp

lemma exit_success (p : Portfolio) (s : Stock) (q : ℚ) (i : Nat) (p' : Portfolio)
    (h : p.exit_position s q i = (p', none)) : FillShape p p' := by
  unfold Portfolio.exit_position at h
  cases hc : p.exit_checked s q i with
  | error e =>
    rw [hc] at h
    simp at h
  | ok v =>
    obtain ⟨quantity, trade_index, trade_time, pos, raw_price, fill⟩ := v
    rw [hc] at h
    rw [Prod.mk.injEq] at h
    obtain ⟨hp, -⟩ := h
    subst hp
    refine ⟨_, _, ?_, rfl, rfl, ?_⟩
    · simp [tradeCashChange]
    · simp

lemma step_bookkeeping {init : ℚ} {n : Nat} {p p' : Portfolio}
    (ih : Bookkept init n p) (h : FillShape p p') : Bookkept init (n + 1) p' := by
  obtain ⟨ev, pt, h1, h2, h3, h4⟩ := h
  obtain ⟨i1, i2, i3, i4⟩ := ih
  refine ⟨?_, ?_, ?_, ?_⟩
  · rw [h1, h2, i1]
    simp
    ring
  · rw [h2]
    simp [i2]
  · rw [h3]
    simp [i3]
  · rw [h3]
    simp only [List.map_append, i4, List.range_succ]
    simp [h4, i2]

/-- C5: after any run of n successful fills from clear_history(init),
cash equals init plus the summed per-trade cash changes (exactly, hence
within 1e-6), the trade log and equity curve both have length n (one
trade event and one equity point appended per fill), and the k-th equity
point's i field is k+1, the trade-log length right after its fill. -/
theorem C5_fill_bookkeeping (init : ℚ) (p0 : Portfolio) (n : Nat) (p : Portfolio)
    (h : Reachable init p0 n p) : Bookkept init n p := by
  induction h with
  | base => refine ⟨?_, ?_, ?_, ?_⟩ <;> simp [Portfolio.clear_history]
  | fill_long s q i hr hf ih => exact step_bookkeeping ih (enter_long_success _ _ _ _ _ hf)
  | fill_short s q i hr hf ih => exact step_bookkeeping ih (enter_short_success _ _ _ _ _ hf)
  | fill_exit s q i hr hf ih => exact step_bookkeeping ih (exit_success _ _ _ _ _ hf)

/-- C5 witness: clear to 1000 and perform one successful short fill; the
bookkeeping invariant holds at n = 1. -/
theorem C5_fill_bookkeeping_witness :
    Bookkept 1000 1 ((pShort0.clear_history 1000).enter_position_short stockTen 50 0).1 :=
  C5_fill_bookkeeping 1000 pShort0 1 _
    (Reachable.fill_short stockTen 50 0 Reachable.base (by with_unfolding_all decide))

lemma map_fst_aset {α : Type} (l : List (String × α)) (k : String) (v : α) :
    (aset l k v).map Prod.fst =
      if k ∈ l.map Prod.fst then l.map Prod.fst else l.map Prod.fst ++ [k] := by
  induction l with
  | nil => simp [aset]
  | cons kv rest ih =>
    by_cases h : kv.1 = k
    · simp [aset, h]
    · simp only [aset, if_neg h, List.map_cons, ih]
      by_cases hm : k ∈ rest.map Prod.fst
      · rw [if_pos hm, if_pos (by simp [hm])]
      · rw [if_neg hm, if_neg (by
          simp only [List.mem_cons]
          push_neg
          exact ⟨fun e => h e.symm, hm⟩), List.cons_append]

lemma nodup_aset {α : Type} (l : List (String × α)) (k : String) (v : α)
    (hnd : (l.map Prod.fst).Nodup) : ((aset l k v).map Prod.fst).Nodup := by
  rw [map_fst_aset]
  by_cases hm : k ∈ l.map Prod.fst
  · rw [if_pos hm]
    exact hnd
  · rw [if_neg hm]
    simp [List.nodup_append, hnd, hm]

/-- C6 counterexample: with a 5 percent commission, a long exit at a
fill (10.02) above the basis (10) realizes a loss (-0.481), refuting the
claimed commission-free sign rule for realized P&L. -/
theorem C6_counterexample_commission_sign :
    (pC6.enter_position_long stockC6 1 0).2 = none ∧
    (pC6a.exit_position stockC6 1 1).2 = none ∧
    pC6b.trade_log.map (fun t => t.realized_pnl) = [0, -481 / 1000] ∧
    pC6b.trade_log.map (fun t => t.fill_price) = [10, 501 / 50] ∧
    (10 : ℚ) < 501 / 50 ∧ (-481 / 1000 : ℚ) < 0 := by
  with_unfolding_all decide

/-- C6 amended: for a portfolio with valid slippage and an existing
position, any exit whose rounded quantity q satisfies 0 < q ≤ |q0|
succeeds with no constraint or admission re-check (no hypothesis about
max_positions, max_position_pct, min_cash_reserve_pct, trade-value
limits or buying power is needed); the position magnitude shrinks to
|q0| - q, the record disappearing exactly when it reaches zero; the
recorded realized_pnl is side (fill - basis) q minus commission, so its
sign matches the price move times the side only when the commission is
zero. -/
theorem C6_amended_exit (p : Portfolio) (s : Stock) (qq : ℚ) (i : Nat) (pos : Position)
    (hnd : (p.positions.map Prod.fst).Nodup)
    (hs0 : 0 ≤ p.slippage) (hs1 : p.slippage < 1)
    (hpos : alookup p.positions s.symbol.toUpper = some pos)
    (hq0 : 0 < p.round_qty qq) (hqle : p.round_qty qq ≤ |pos.quantity|) :
    (p.exit_position s qq i).2 = none ∧
    (let q := p.round_qty qq
     let raw := s.price (s.trade_meta i).1
     let fill := if 0 < pos.quantity then raw * (1 - -p.slippage) else raw * (1 + p.slippage)
     let commission := p.compute_commission q (fill * q)
     (p.exit_position s qq i).1.trade_log = p.trade_log ++
       [{ ttype := "exit", stock := s.symbol, quantity := q, price := raw, fill_price := fill,
          amount := if 0 < pos.quantity then fill * q - commission else -(fill * q + commission),
          commission := commission,
          realized_pnl := if 0 < pos.quantity then (fill - pos.avg_price) * q - commission
                          else (pos.avg_price - fill) * q - commission,
          index := (s.trade_meta i).1, time := (s.trade_meta i).2 }] ∧
     (match alookup (p.exit_position s qq i).1.positions s.symbol.toUpper with
      | none => q = |pos.quantity|
      | some pos' => |pos'.quantity| = |pos.quantity| - q) ∧
     (commission = 0 →
       (0 < (if 0 < pos.quantity then (fill - pos.avg_price) * q - commission
             else (pos.avg_price - fill) * q - commission) ↔
         (if 0 < pos.quantity then pos.avg_price < fill else fill < pos.avg_price)))) := by
  have hno : ¬(p.slippage < 0 ∨ 1 ≤ p.slippage) := by
    push_neg
    exact ⟨hs0, hs1⟩
  have hq0ne : pos.quantity ≠ 0 := by
    intro e
    rw [e] at hqle
    simp at hqle
    linarith
  have hf : p.fill_price (if 0 < pos.quantity then "sell" else "buy")
      (s.price (s.trade_meta i).1) =
      .ok (if 0 < pos.quantity then s.price (s.trade_meta i).1 * (1 - -p.slippage)
           else s.price (s.trade_meta i).1 * (1 + p.slippage)) := by
    by_cases hsgn : 0 < pos.quantity
    · rw [if_pos hsgn, if_pos hsgn]
      unfold Portfolio.fill_price Portfolio.slippage_factor
      rw [if_neg hno]
      simp
    · rw [if_neg hsgn, if_neg hsgn]
      unfold Portfolio.fill_price Portfolio.slippage_factor
      rw [if_neg hno]
      simp
  have hchecked : p.exit_checked s qq i =
      .ok (p.round_qty qq, (s.trade_meta i).1, (s.trade_meta i).2, pos,
           s.price (s.trade_meta i).1,
           if 0 < pos.quantity then s.price (s.trade_meta i).1 * (1 - -p.slippage)
           else s.price (s.trade_meta i).1 * (1 + p.slippage)) := by
    unfold Portfolio.exit_checked
    simp only [hpos, if_neg (not_le.mpr hq0), if_neg (not_lt.mpr hqle), hf]
  refine ⟨?_, ?_, ?_, ?_⟩
  · unfold Portfolio.exit_position
    rw [hchecked]
  · unfold Portfolio.exit_position
    rw [hchecked]
  · unfold Portfolio.exit_position
    rw [hchecked]
    simp only []
    by_cases hz : (if 0 < pos.quantity then pos.quantity - p.round_qty qq
        else pos.quantity + p.round_qty qq) = 0
    · rw [if_pos hz]
      rw [alookup_aerase_self _ _ (nodup_aset _ _ _ hnd)]
      show p.round_qty qq = |pos.quantity|
      by_cases hsgn : 0 < pos.quantity
      · rw [if_pos hsgn] at hz
        rw [abs_of_pos hsgn]
        linarith
      · rw [if_neg hsgn] at hz
        have hneg : pos.quantity < 0 := lt_of_le_of_ne (not_lt.mp hsgn) hq0ne
        rw [abs_of_neg hneg]
        linarith
    · rw [if_neg hz]
      rw [alookup_aset_self]
      show |(if 0 < pos.quantity then pos.quantity - p.round_qty qq
             else pos.quantity + p.round_qty qq)| = |pos.quantity| - p.round_qty qq
      by_cases hsgn : 0 < pos.quantity
      · rw [if_pos hsgn]
        rw [abs_of_pos hsgn] at hqle ⊢
        rw [abs_of_nonneg (by linarith)]
      · rw [if_neg hsgn]
        have hneg : pos.quantity < 0 := lt_of_le_of_ne (not_lt.mp hsgn) hq0ne
        rw [abs_of_neg hneg] at hqle ⊢
        rw [abs_of_nonpos (by linarith)]
        ring
  · intro hcz
    rw [hcz]
    by_cases hsgn : 0 < pos.quantity
    · simp only [if_pos hsgn]
      rw [sub_zero]
      constructor
      · intro hlt
        rcases mul_pos_iff.mp hlt with ⟨h1, -⟩ | ⟨-, h2⟩
        · linarith [sub_pos.mp h1]
        · linarith
      · intro hlt
        exact mul_pos (sub_pos.mpr hlt) hq0
    · simp only [if_neg hsgn]
      rw [sub_zero]
      constructor
      · intro hlt
        rcases mul_pos_iff.mp hlt with ⟨h1, -⟩ | ⟨-, h2⟩
        · linarith [sub_pos.mp h1]
        · linarith
      · intro hlt
        exact mul_pos (sub_pos.mpr hlt) hq0

/-- C6 amended witness: the commission fixture's exit succeeds. -/
theorem C6_amended_exit_witness :
    (pC6a.exit_position stockC6 1 1).2 = none :=
  (C6_amended_exit pC6a stockC6 1 1 ⟨stockC6, 1, 10, 0⟩
    (by with_unfolding_all decide) (by with_unfolding_all decide)
    (by with_unfolding_all decide) (by with_unfolding_all decide)
    (by with_unfolding_all decide) (by with_unfolding_all decide)).1

/-- C10: every failing entry or exit leaves the portfolio exactly as it
was: the source raises (quantity, shorting-disabled, admission breaches,
missing position, oversized exit, slippage validation) strictly before
its first state mutation, so the error result carries the unchanged
state. -/
theorem C10_atomic_on_failure (p : Portfolio) (s : Stock) (q : ℚ) (i : Nat) :
    ((p.enter_position_long s q i).2.isSome = true → (p.enter_position_long s q i).1 = p) ∧
    ((p.enter_position_short s q i).2.isSome = true → (p.enter_position_short s q i).1 = p) ∧
    ((p.exit_position s q i).2.isSome = true → (p.exit_position s q i).1 = p) := by
  refine ⟨?_, ?_, ?_⟩
  · unfold Portfolio.enter_position_long
    split <;> simp
  · unfold Portfolio.enter_position_short
    split <;> simp
  · unfold Portfolio.exit_position
    split <;> simp

/-- C10 witness: exiting a symbol that is not in the (empty) portfolio
fails and leaves the portfolio unchanged. -/
theorem C10_atomic_on_failure_witness :
    (Portfolio.exit_position {} stockTen 1 0).1 = {} :=
  (C10_atomic_on_failure {} stockTen 1 0).2.2 (by with_unfolding_all decide)


lemma alookup_posView (l : List (String × Position)) (k : String) :
    alookup (posView l) k = (alookup l k).map (fun pos => (pos.stock, pos.quantity)) := by
  induction l with
  | nil => rfl
  | cons kv rest ih =>
    by_cases h : kv.1 = k
    · simp [posView, alookup, h]
    · simp only [posView, List.map_cons, alookup, if_neg h]
      exact ih

lemma posView_cons (kv : String × Position) (l : List (String × Position)) :
    posView (kv :: l) = (kv.1, (kv.2.stock, kv.2.quantity)) :: posView l := rfl

lemma posView_aset (l : List (String × Position)) (k : String) (pos : Position) :
    posView (aset l k pos) = aset (posView l) k (pos.stock, pos.quantity) := by
  induction l with
  | nil => simp [posView, aset]
  | cons kv rest ih =>
    by_cases h : kv.1 = k
    · simp [posView, aset, h]
    · simp only [aset, if_neg h, posView_cons, ih]
      rfl

lemma posView_aerase (l : List (String × Position)) (k : String) :
    posView (aerase l k) = aerase (posView l) k := by
  induction l with
  | nil => rfl
  | cons kv rest ih =>
    by_cases h : kv.1 = k
    · simp [posView, aerase, h]
    · simp only [aerase, if_neg h, posView_cons, ih]
      rfl

lemma aset_lookup_self {α : Type} (l : List (String × α)) (k : String) (v : α)
    (h : alookup l k = some v) : aset l k v = l := by
  induction l with
  | nil => simp [alookup] at h
  | cons kv rest ih =>
    by_cases hk : kv.1 = k
    · simp only [alookup, if_pos hk] at h
      injection h with h
      subst h
      simp only [aset, if_pos hk]
      rw [← hk]
    · simp only [alookup, if_neg hk] at h
      simp only [aset, if_neg hk]
      rw [ih h]

lemma posView_refresh (l : List (String × Position)) (sym : String) (r : ℚ) :
    posView (match alookup l sym with
             | some pos2 => aset l sym { pos2 with realized_pnl := r }
             | none => l) = posView l := by
  cases he : alookup l sym with
  | none => rfl
  | some pos2 =>
    show posView (aset l sym { pos2 with realized_pnl := r }) = posView l
    rw [posView_aset]
    have hv : alookup (posView l) sym = some (pos2.stock, pos2.quantity) := by
      rw [alookup_posView, he]
      rfl
    exact aset_lookup_self (posView l) sym _ hv

lemma posView_updateLongPositions (l : List (String × Position)) (rtbl : List (String × ℚ))
    (sym : String) (stock : Stock) (price q : ℚ)
    (hnd : (l.map Prod.fst).Nodup) (hq : 0 < q) :
    posView (updateLongPositions l rtbl sym stock price q).1 =
      projUpdate (posView l) sym stock "buy" q := by
  unfold updateLongPositions projUpdate
  rw [if_pos (rfl : ("buy" : String) = "buy")]
  rw [alookup_posView]
  cases he : alookup l sym with
  | none =>
    simp only [Option.map_none', Option.getD_none, posView_aset, zero_add]
    rw [if_neg (ne_of_gt hq)]
  | some pos =>
    simp only [Option.map_some', Option.getD_some]
    by_cases h0 : 0 ≤ pos.quantity
    · rw [if_pos h0]
      simp only [posView_aset]
      rw [if_neg (by
        show ¬(pos.quantity + q = 0)
        intro e
        linarith)]
    · rw [if_neg h0]
      have hneg : pos.quantity < 0 := not_le.mp h0
      have habs : |pos.quantity| = -pos.quantity := abs_of_neg hneg
      rcases lt_trichotomy q (-pos.quantity) with hlt | heq | hgt
      · have hmin : min q |pos.quantity| = q := by
          rw [habs]
          exact min_eq_left (le_of_lt hlt)
        simp only [hmin]
        have hnz : pos.quantity + q ≠ 0 := by
          intro e
          linarith
        rw [if_neg (fun hh => hnz hh.1), if_neg (fun hh => hnz hh.1)]
        rw [posView_refresh, posView_aset]
        rw [if_neg hnz]
      · have hmin : min q |pos.quantity| = q := by
          rw [habs, heq]
          exact min_eq_left le_rfl
        simp only [hmin]
        have hz : pos.quantity + q = 0 := by
          rw [heq]
          ring
        rw [if_pos ⟨hz, by ring⟩]
        have hlook : alookup (aerase l sym) sym = none := alookup_aerase_self l sym hnd
        rw [show (match alookup (aerase l sym) sym with
              | some pos2 => aset (aerase l sym) sym
                  { pos2 with realized_pnl := realizedGet rtbl sym + (pos.avg_price - price) * q }
              | none => aerase l sym) = aerase l sym from by rw [hlook]]
        rw [posView_aerase, if_pos hz]
      · have hmin : min q |pos.quantity| = -pos.quantity := by
          rw [habs]
          exact min_eq_right (le_of_lt hgt)
        simp only [hmin]
        have hz : pos.quantity + -pos.quantity = 0 := by ring
        have hrpos : 0 < q - -pos.quantity := by linarith
        have hr0 : q - -pos.quantity ≠ 0 := ne_of_gt hrpos
        rw [if_neg (fun hh => hr0 hh.2), if_pos ⟨hz, hrpos⟩]
        rw [posView_refresh, posView_aset]
        rw [if_neg (by intro e; linarith)]
        have hval : q - -pos.quantity = pos.quantity + q := by ring
        rw [hval]

lemma posView_updateShortPositions (l : List (String × Position)) (rtbl : List (String × ℚ))
    (sym : String) (stock : Stock) (price q : ℚ)
    (hnd : (l.map Prod.fst).Nodup) (hq : 0 < q) :
    posView (updateShortPositions l rtbl sym stock price q).1 =
      projUpdate (posView l) sym stock "sell" q := by
  unfold updateShortPositions projUpdate
  rw [if_neg (by decide : ¬("sell" : String) = "buy")]
  rw [alookup_posView]
  cases he : alookup l sym with
  | none =>
    simp only [Option.map_none', Option.getD_none, posView_aset, zero_add]
    rw [if_neg (by
      intro e
      have : q = 0 := by linarith [neg_eq_zero.mp e]
      exact absurd this (ne_of_gt hq))]
  | some pos =>
    simp only [Option.map_some', Option.getD_some]
    by_cases h0 : pos.quantity ≤ 0
    · rw [if_pos h0]
      simp only [posView_aset]
      rw [if_neg (by
        show ¬(pos.quantity + -q = 0)
        intro e
        linarith)]
      rw [show pos.quantity - q = pos.quantity + -q from by ring]
    · rw [if_neg h0]
      have hposq : 0 < pos.quantity := not_le.mp h0
      rcases lt_trichotomy q pos.quantity with hlt | heq | hgt
      · have hmin : min q pos.quantity = q := min_eq_left (le_of_lt hlt)
        simp only [hmin]
        have hnz : pos.quantity - q ≠ 0 := by
          intro e
          linarith
        rw [if_neg (fun hh => hnz hh.1), if_neg (fun hh => hnz hh.1)]
        rw [posView_refresh, posView_aset]
        rw [if_neg (by
          show ¬(pos.quantity + -q = 0)
          intro e
          linarith)]
        rw [show pos.quantity - q = pos.quantity + -q from by ring]
      · have hmin : min q pos.quantity = q := min_eq_left (le_of_eq heq)
        simp only [hmin]
        have hz : pos.quantity - q = 0 := by
          rw [heq]
          ring
        rw [if_pos ⟨hz, by ring⟩]
        have hlook : alookup (aerase l sym) sym = none := alookup_aerase_self l sym hnd
        rw [show (match alookup (aerase l sym) sym with
              | some pos2 => aset (aerase l sym) sym
                  { pos2 with realized_pnl := realizedGet rtbl sym + (price - pos.avg_price) * q }
              | none => aerase l sym) = aerase l sym from by rw [hlook]]
        rw [posView_aerase, if_pos (by rw [heq]; ring)]
      · have hmin : min q pos.quantity = pos.quantity := min_eq_right (le_of_lt hgt)
        simp only [hmin]
        have hz : pos.quantity - pos.quantity = 0 := by ring
        have hrpos : 0 < q - pos.quantity := by linarith
        have hr0 : q - pos.quantity ≠ 0 := ne_of_gt hrpos
        rw [if_neg (fun hh => hr0 hh.2), if_pos ⟨hz, hrpos⟩]
        rw [posView_refresh, posView_aset]
        rw [if_neg (by
          show ¬(pos.quantity + -q = 0)
          intro e
          linarith)]
        rw [show -(q - pos.quantity) = pos.quantity + -q from by ring]

lemma posView_applyRealized (l : List (String × Position)) (rtbl : List (String × ℚ))
    (sym : String) (rlz : ℚ) :
    posView (applyRealized l rtbl sym rlz).1 = posView l := by
  unfold applyRealized
  by_cases h : rlz ≠ 0
  · rw [if_pos h]
    exact posView_refresh l sym _
  · rw [if_neg h]

lemma reserved_projected_eq (p : Portfolio) (c : ℚ) (l : List (String × Position)) (i : Nat)
    (hpx : ∀ kv ∈ l, 0 ≤ kv.2.stock.price i) :
    p.reserved_cash_projected c (posView l) i =
      p.short_margin_requirement *
        (l.map (fun kv =>
          if kv.2.quantity < 0 then kv.2.stock.price i * |kv.2.quantity| else 0)).sum +
      p.min_cash_reserve_pct *
        max 0 (c + (l.map (fun kv => kv.2.stock.price i * kv.2.quantity)).sum) := by
  unfold Portfolio.reserved_cash_projected posView
  rw [List.map_map, List.map_map]
  have hsm : (l.map ((fun kv => if kv.2.2 < 0 then kv.2.1.price i * |kv.2.2| else 0) ∘
      (fun kv => (kv.1, (kv.2.stock, kv.2.quantity))))).sum =
      (l.map (fun kv =>
        if kv.2.quantity < 0 then kv.2.stock.price i * |kv.2.quantity| else 0)).sum := rfl
  have heq : (l.map ((fun kv => kv.2.1.price i * kv.2.2) ∘
      (fun kv => (kv.1, (kv.2.stock, kv.2.quantity))))).sum =
      (l.map (fun kv => kv.2.stock.price i * kv.2.quantity)).sum := rfl
  rw [hsm, heq]
  dsimp only
  have hnn : 0 ≤ (l.map (fun kv =>
      if kv.2.quantity < 0 then kv.2.stock.price i * |kv.2.quantity| else 0)).sum := by
    apply List.sum_nonneg
    intro x hx
    simp only [List.mem_map] at hx
    obtain ⟨kv, hkv, rfl⟩ := hx
    by_cases hneg : kv.2.quantity < 0
    · rw [if_pos hneg]
      exact mul_nonneg (hpx kv hkv) (abs_nonneg _)
    · rw [if_neg hneg]
  congr 1
  · rcases lt_or_eq_of_le hnn with hpos | hzero
    · rw [if_pos hpos]
    · rw [if_neg (by rw [← hzero]; exact lt_irrefl 0), ← hzero, mul_zero]
  · by_cases hm : p.min_cash_reserve_pct ≠ 0
    · rw [if_pos hm]
    · rw [if_neg hm]
      push_neg at hm
      rw [hm, zero_mul]

lemma margin_after_long (p : Portfolio) (s : Stock) (q : ℚ) (i : Nat) (p' : Portfolio)
    (hnd : (p.positions.map Prod.fst).Nodup)
    (h : p.enter_position_long s q i = (p', none))
    (hpx : ∀ kv ∈ p'.positions, 0 ≤ kv.2.stock.price (s.trade_meta i).1) :
    -(1 / 1000000) ≤ p'.cash -
      (p'.short_margin_requirement * p'.get_short_market_value (s.trade_meta i).1 +
       p'.min_cash_reserve_pct * max 0 (p'.get_value (s.trade_meta i).1)) := by
  unfold Portfolio.enter_position_long at h
  cases hc : p.enter_long_checked s q i with
  | error e =>
    rw [hc] at h
    simp at h
  | ok v =>
    obtain ⟨quantity, ti, tt, raw, price, comm, cost⟩ := v
    rw [hc] at h
    rw [Prod.mk.injEq] at h
    obtain ⟨hp, -⟩ := h
    subst hp
    simp only [Portfolio.enter_long_checked] at hc
    split at hc
    · simp at hc
    · split at hc
      · simp at hc
      · rename_i price0 hf heqchk
        rw [Except.ok.injEq] at hc
        obtain ⟨hq1, hq2, hq3, hq4, hq5, hq6, hq7⟩ := hc
        simp only [Portfolio.check_order_common] at heqchk
        split_ifs at heqchk with h1 h2 h3 h4 h5 h6 h7 h8 h9
        all_goals try simp at heqchk
        have hq0 : 0 < p.round_qty q := not_le.mp h1
        have hview : posView ((applyRealized
            (updateLongPositions p.positions p.realized s.symbol.toUpper s price (p.round_qty q)).1
            p.realized s.symbol.toUpper
            (updateLongPositions p.positions p.realized s.symbol.toUpper s price (p.round_qty q)).2).1)
            = projUpdate (posView p.positions) s.symbol.toUpper s "buy" (p.round_qty q) := by
          rw [posView_applyRealized]
          exact posView_updateLongPositions p.positions p.realized s.symbol.toUpper s price
            (p.round_qty q) hnd hq0
        dsimp only at hpx ⊢
        unfold Portfolio.get_short_market_value Portfolio.get_value
        dsimp only
        rw [not_lt, ← sub_eq_add_neg] at h9
        have hr : p.reserved_cash_projected
            (p.cash - (price * p.round_qty q +
              p.compute_commission (p.round_qty q) (price * p.round_qty q)))
            (projUpdate p.positions_view s.symbol.toUpper s "buy" (p.round_qty q))
            (s.trade_meta i).1 =
            p.short_margin_requirement *
              (((applyRealized
                  (updateLongPositions p.positions p.realized s.symbol.toUpper s price (p.round_qty q)).1
                  p.realized s.symbol.toUpper
                  (updateLongPositions p.positions p.realized s.symbol.toUpper s price (p.round_qty q)).2).1).map
                (fun kv => if kv.2.quantity < 0
                  then kv.2.stock.price (s.trade_meta i).1 * |kv.2.quantity| else 0)).sum +
            p.min_cash_reserve_pct *
              max 0 ((p.cash - (price * p.round_qty q +
                  p.compute_commission (p.round_qty q) (price * p.round_qty q))) +
                (((applyRealized
                    (updateLongPositions p.positions p.realized s.symbol.toUpper s price (p.round_qty q)).1
                    p.realized s.symbol.toUpper
                    (updateLongPositions p.positions p.realized s.symbol.toUpper s price (p.round_qty q)).2).1).map
                  (fun kv => kv.2.stock.price (s.trade_meta i).1 * kv.2.quantity)).sum) := by
          rw [show p.positions_view = posView p.positions from rfl, ← hview]
          exact reserved_projected_eq p _ _ _ hpx
        rw [hr] at h9
        linarith

lemma margin_after_short (p : Portfolio) (s : Stock) (q : ℚ) (i : Nat) (p' : Portfolio)
    (hnd : (p.positions.map Prod.fst).Nodup)
    (h : p.enter_position_short s q i = (p', none))
    (hpx : ∀ kv ∈ p'.positions, 0 ≤ kv.2.stock.price (s.trade_meta i).1) :
    -(1 / 1000000) ≤ p'.cash -
      (p'.short_margin_requirement * p'.get_short_market_value (s.trade_meta i).1 +
       p'.min_cash_reserve_pct * max 0 (p'.get_value (s.trade_meta i).1)) := by
  unfold Portfolio.enter_position_short at h
  cases hc : p.enter_short_checked s q i with
  | error e =>
    rw [hc] at h
    simp at h
  | ok v =>
    obtain ⟨quantity, ti, tt, raw, price, comm, proceeds⟩ := v
    rw [hc] at h
    rw [Prod.mk.injEq] at h
    obtain ⟨hp, -⟩ := h
    subst hp
    simp only [Portfolio.enter_short_checked] at hc
    split at hc
    · simp at hc
    · split at hc
      · simp at hc
      · split at hc
        · simp at hc
        · rename_i hfp hok hchkeq
          rw [Except.ok.injEq] at hc
          obtain ⟨hq1, hq2, hq3, hq4, hq5, hq6, hq7⟩ := hc
          simp only [Portfolio.check_order_common] at hchkeq
          split_ifs at hchkeq with h1 h2 h3 h4 h5 h6 h7 h8 h9
          all_goals try simp at hchkeq
          have hq0 : 0 < p.round_qty q := not_le.mp h1
          have hview : posView ((applyRealized
              (updateShortPositions p.positions p.realized s.symbol.toUpper s price (p.round_qty q)).1
              p.realized s.symbol.toUpper
              (updateShortPositions p.positions p.realized s.symbol.toUpper s price (p.round_qty q)).2).1)
              = projUpdate (posView p.positions) s.symbol.toUpper s "sell" (p.round_qty q) := by
            rw [posView_applyRealized]
            exact posView_updateShortPositions p.positions p.realized s.symbol.toUpper s price
              (p.round_qty q) hnd hq0
          dsimp only at hpx ⊢
          unfold Portfolio.get_short_market_value Portfolio.get_value
          dsimp only
          rw [not_lt] at h9
          have hr : p.reserved_cash_projected
              (p.cash + (price * p.round_qty q -
                p.compute_commission (p.round_qty q) (price * p.round_qty q)))
              (projUpdate p.positions_view s.symbol.toUpper s "sell" (p.round_qty q))
              (s.trade_meta i).1 =
              p.short_margin_requirement *
                (((applyRealized
                    (updateShortPositions p.positions p.realized s.symbol.toUpper s price (p.round_qty q)).1
                    p.realized s.symbol.toUpper
                    (updateShortPositions p.positions p.realized s.symbol.toUpper s price (p.round_qty q)).2).1).map
                  (fun kv => if kv.2.quantity < 0
                    then kv.2.stock.price (s.trade_meta i).1 * |kv.2.quantity| else 0)).sum +
              p.min_cash_reserve_pct *
                max 0 ((p.cash + (price * p.round_qty q -
                    p.compute_commission (p.round_qty q) (price * p.round_qty q))) +
                  (((applyRealized
                      (updateShortPositions p.positions p.realized s.symbol.toUpper s price (p.round_qty q)).1
                      p.realized s.symbol.toUpper
                      (updateShortPositions p.positions p.realized s.symbol.toUpper s price (p.round_qty q)).2).1).map
                    (fun kv => kv.2.stock.price (s.trade_meta i).1 * kv.2.quantity)).sum) := by
            rw [show p.positions_view = posView p.positions from rfl, ← hview]
            exact reserved_projected_eq p _ _ _ hpx
          rw [hr] at h9
          linarith


/-- C4: for every admission-accepted entry (long or short), the post-fill
state satisfies cash_after - reserved_after >= -1e-6, where
reserved_after is short_margin_requirement times the short market value
plus min_cash_reserve_pct times max(0, equity), all evaluated over the
post-fill positions at the order's (clamped) bar index.  The two
hypotheses encode the data-model invariants the spec states elsewhere:
position keys are unique (a Python dict) and close prices are
nonnegative. -/
theorem C4_margin_projection (p : Portfolio) (s : Stock) (q : ℚ) (i : Nat) (p' : Portfolio)
    (hnd : (p.positions.map Prod.fst).Nodup)
    (h : p.enter_position_long s q i = (p', none) ∨ p.enter_position_short s q i = (p', none))
    (hpx : ∀ kv ∈ p'.positions, 0 ≤ kv.2.stock.price (s.trade_meta i).1) :
    -(1 / 1000000) ≤ p'.cash -
      (p'.short_margin_requirement * p'.get_short_market_value (s.trade_meta i).1 +
       p'.min_cash_reserve_pct * max 0 (p'.get_value (s.trade_meta i).1)) := by
  rcases h with h | h
  · exact margin_after_long p s q i p' hnd h hpx
  · exact margin_after_short p s q i p' hnd h hpx

/-- C4 witness: the admitted short of 50 at close 10 from cash 1000
leaves buying power within the margin tolerance. -/
theorem C4_margin_projection_witness :
    -(1 / 1000000) ≤ pShort1.cash -
      (pShort1.short_margin_requirement *
        pShort1.get_short_market_value (stockTen.trade_meta 0).1 +
       pShort1.min_cash_reserve_pct * max 0 (pShort1.get_value (stockTen.trade_meta 0).1)) :=
  C4_margin_projection pShort0 stockTen 50 0 pShort1
    (by with_unfolding_all decide)
    (Or.inr (by with_unfolding_all decide))
    (by with_unfolding_all decide)

lemma counts_cons_skip (t : TradeEvent) (tl : List TradeEvent) (s : String)
    (hne : t.stock.toUpper ≠ s) :
    tradesCount (t :: tl) s = tradesCount tl s ∧
    exitsCount (t :: tl) s = exitsCount tl s ∧
    netRealized (t :: tl) s = netRealized tl s := by
  refine ⟨?_, ?_, ?_⟩ <;>
    simp [tradesCount, exitsCount, netRealized, List.filter_cons, hne]

lemma tradesCount_cons_match (t : TradeEvent) (tl : List TradeEvent) (s : String)
    (h : t.stock.toUpper = s) :
    tradesCount (t :: tl) s = tradesCount tl s + 1 := by
  simp [tradesCount, List.filter_cons, h]

lemma addCounts_nil (r : SymRec) (s : String) : addCounts r [] s = r := by
  simp [addCounts, tradesCount, exitsCount, netRealized]

lemma addCounts_skip (r : SymRec) (t : TradeEvent) (tl : List TradeEvent) (s : String)
    (hne : t.stock.toUpper ≠ s) :
    addCounts r (t :: tl) s = addCounts r tl s := by
  obtain ⟨h1, h2, h3⟩ := counts_cons_skip t tl s hne
  simp [addCounts, h1, h2, h3]

lemma addCounts_step (r : SymRec) (t : TradeEvent) (tl : List TradeEvent) (s : String)
    (h : t.stock.toUpper = s) :
    addCounts (csbNew r t) tl s = addCounts r (t :: tl) s := by
  by_cases hx : t.ttype.toLower = "exit" <;>
    simp [addCounts, csbNew, hx, tradesCount, exitsCount, netRealized,
      List.filter_cons, h, SymRec.mk.injEq] <;>
    and_intros <;> first | rfl | omega | ring

lemma csbNew_symbol (r : SymRec) (t : TradeEvent) : (csbNew r t).symbol = r.symbol := by
  by_cases hx : t.ttype.toLower = "exit" <;> simp [csbNew, hx]

lemma csbFold_empty (acc : List (String × SymRec)) (t : TradeEvent)
    (h : t.stock.toUpper = "") : csbFold acc t = acc := by
  simp [csbFold, h]

lemma csbFold_some (acc : List (String × SymRec)) (t : TradeEvent) (r : SymRec)
    (hne : t.stock.toUpper ≠ "") (h : alookup acc t.stock.toUpper = some r) :
    csbFold acc t = aset acc t.stock.toUpper (csbNew r t) := by
  simp [csbFold, hne, h]

lemma csbFold_none (acc : List (String × SymRec)) (t : TradeEvent)
    (hne : t.stock.toUpper ≠ "") (h : alookup acc t.stock.toUpper = none) :
    csbFold acc t = aset acc t.stock.toUpper (csbNew ⟨t.stock.toUpper, 0, 0, 0⟩ t) := by
  simp [csbFold, hne, h]

lemma csb_lookup_some (s : String) (hs : s ≠ "") (tl : List TradeEvent) :
    ∀ (acc : List (String × SymRec)) (r : SymRec), alookup acc s = some r →
      alookup (tl.foldl csbFold acc) s = some (addCounts r tl s) := by
  induction tl with
  | nil =>
    intro acc r h
    rw [List.foldl_nil, h, addCounts_nil]
  | cons t tl ih =>
    intro acc r h
    rw [List.foldl_cons]
    by_cases hempty : t.stock.toUpper = ""
    · have hne : t.stock.toUpper ≠ s := fun e => hs (e.symm.trans hempty)
      rw [csbFold_empty acc t hempty, ih acc r h, addCounts_skip r t tl s hne]
    · by_cases hmatch : t.stock.toUpper = s
      · subst hmatch
        rw [csbFold_some acc t r hempty h]
        rw [ih _ _ (alookup_aset_self acc _ _)]
        rw [addCounts_step r t tl _ rfl]
      · have h3 : alookup (csbFold acc t) s = some r := by
          simp only [csbFold]
          rw [if_neg hempty]
          rw [alookup_aset_ne acc t.stock.toUpper s _ (fun e => hmatch e.symm)]
          exact h
        rw [ih _ _ h3, addCounts_skip r t tl s hmatch]

lemma csb_lookup_none (s : String) (hs : s ≠ "") (tl : List TradeEvent) :
    ∀ acc : List (String × SymRec), alookup acc s = none →
      alookup (tl.foldl csbFold acc) s =
        if tradesCount tl s = 0 then none
        else some (addCounts ⟨s, 0, 0, 0⟩ tl s) := by
  induction tl with
  | nil =>
    intro acc h
    simpa [tradesCount] using h
  | cons t tl ih =>
    intro acc h
    rw [List.foldl_cons]
    by_cases hempty : t.stock.toUpper = ""
    · have hne : t.stock.toUpper ≠ s := fun e => hs (e.symm.trans hempty)
      rw [csbFold_empty acc t hempty, ih acc h,
        (counts_cons_skip t tl s hne).1, addCounts_skip _ t tl s hne]
    · by_cases hmatch : t.stock.toUpper = s
      · subst hmatch
        rw [csbFold_none acc t hempty h]
        rw [csb_lookup_some _ hs tl _ _ (alookup_aset_self acc _ _)]
        rw [addCounts_step _ t tl _ rfl]
        rw [if_neg (by rw [tradesCount_cons_match t tl _ rfl]; exact Nat.succ_ne_zero _)]
      · have h3 : alookup (csbFold acc t) s = none := by
          simp only [csbFold]
          rw [if_neg hempty]
          rw [alookup_aset_ne acc t.stock.toUpper s _ (fun e => hmatch e.symm)]
          exact h
        rw [ih _ h3, (counts_cons_skip t tl s hmatch).1, addCounts_skip _ t tl s hmatch]

lemma alookup_mem {α : Type} (l : List (String × α)) (k : String) (v : α)
    (h : alookup l k = some v) : (k, v) ∈ l := by
  induction l with
  | nil => exact absurd h (by simp [alookup])
  | cons kv rest ih =>
    obtain ⟨k1, v1⟩ := kv
    simp only [alookup] at h
    by_cases hk : k1 = k
    · rw [if_pos hk] at h
      injection h with h
      subst hk
      subst h
      exact List.mem_cons.mpr (Or.inl rfl)
    · rw [if_neg hk] at h
      exact List.mem_cons.mpr (Or.inr (ih h))

lemma mem_alookup_of_nodup {α : Type} (l : List (String × α)) (k : String) (v : α)
    (hnd : (l.map Prod.fst).Nodup) (h : (k, v) ∈ l) : alookup l k = some v := by
  induction l with
  | nil => simp at h
  | cons kv rest ih =>
    obtain ⟨k1, v1⟩ := kv
    simp only [List.map_cons, List.nodup_cons] at hnd
    rcases List.mem_cons.mp h with h1 | h1
    · injection h1 with e1 e2
      subst e1
      subst e2
      simp [alookup]
    · by_cases hk : k1 = k
      · subst hk
        exact absurd (List.mem_map_of_mem Prod.fst h1) hnd.1
      · simp only [alookup, if_neg hk]
        exact ih hnd.2 h1

lemma mem_aset {α : Type} (l : List (String × α)) (k : String) (v : α) (x : String × α)
    (h : x ∈ aset l k v) : x ∈ l ∨ x = (k, v) := by
  induction l with
  | nil =>
    simp only [aset, List.mem_singleton] at h
    exact Or.inr h
  | cons kv rest ih =>
    obtain ⟨k1, v1⟩ := kv
    simp only [aset] at h
    by_cases hk : k1 = k
    · rw [if_pos hk] at h
      rcases List.mem_cons.mp h with h1 | h1
      · exact Or.inr h1
      · exact Or.inl (List.mem_cons.mpr (Or.inr h1))
    · rw [if_neg hk] at h
      rcases List.mem_cons.mp h with h1 | h1
      · exact Or.inl (List.mem_cons.mpr (Or.inl h1))
      · rcases ih h1 with h2 | h2
        · exact Or.inl (List.mem_cons.mpr (Or.inr h2))
        · exact Or.inr h2

lemma csb_fold_keys (tl : List TradeEvent) :
    ∀ acc : List (String × SymRec),
      (∀ kr ∈ acc, kr.1 = kr.2.symbol ∧ kr.1 ≠ "") →
      ∀ kr ∈ tl.foldl csbFold acc, kr.1 = kr.2.symbol ∧ kr.1 ≠ "" := by
  induction tl with
  | nil => exact fun acc h => h
  | cons t tl ih =>
    intro acc h
    rw [List.foldl_cons]
    apply ih
    intro kr hkr
    by_cases hempty : t.stock.toUpper = ""
    · rw [csbFold_empty acc t hempty] at hkr
      exact h kr hkr
    · have hset : ∃ r0 : SymRec, r0.symbol = t.stock.toUpper ∧
          csbFold acc t = aset acc t.stock.toUpper (csbNew r0 t) := by
        cases hl : alookup acc t.stock.toUpper with
        | some r =>
          exact ⟨r, (h (t.stock.toUpper, r) (alookup_mem acc _ r hl)).1.symm,
            csbFold_some acc t r hempty hl⟩
        | none =>
          exact ⟨⟨t.stock.toUpper, 0, 0, 0⟩, rfl, csbFold_none acc t hempty hl⟩
      obtain ⟨r0, hr0, heq⟩ := hset
      rw [heq] at hkr
      rcases mem_aset acc _ _ kr hkr with h1 | h1
      · exact h kr h1
      · subst h1
        exact ⟨((csbNew_symbol r0 t).trans hr0).symm, hempty⟩

lemma csb_fold_nodup (tl : List TradeEvent) :
    ∀ acc : List (String × SymRec), (acc.map Prod.fst).Nodup →
      ((tl.foldl csbFold acc).map Prod.fst).Nodup := by
  induction tl with
  | nil => exact fun acc h => h
  | cons t tl ih =>
    intro acc h
    rw [List.foldl_cons]
    apply ih
    by_cases hempty : t.stock.toUpper = ""
    · rw [csbFold_empty acc t hempty]
      exact h
    · cases hl : alookup acc t.stock.toUpper with
      | some r =>
        rw [csbFold_some acc t r hempty hl]
        exact nodup_aset acc _ _ h
      | none =>
        rw [csbFold_none acc t hempty hl]
        exact nodup_aset acc _ _ h

lemma csb_mem_entry (tl : List TradeEvent) (k : String) (v : SymRec)
    (h : (k, v) ∈ tl.foldl csbFold []) :
    k = v.symbol ∧ k ≠ "" ∧ 0 < tradesCount tl k ∧
      v = addCounts ⟨k, 0, 0, 0⟩ tl k := by
  have hkey := csb_fold_keys tl [] (by intro kr hkr; simp at hkr) (k, v) h
  have hnd := csb_fold_nodup tl [] (by simp)
  have hl : alookup (tl.foldl csbFold []) k = some v :=
    mem_alookup_of_nodup _ k v hnd h
  rw [csb_lookup_none k hkey.2 tl [] rfl] at hl
  by_cases hz : tradesCount tl k = 0
  · rw [if_pos hz] at hl
    exact absurd hl (by simp)
  · rw [if_neg hz] at hl
    injection hl with hl
    exact ⟨hkey.1, hkey.2, Nat.pos_of_ne_zero hz, hl.symm⟩

lemma mem_csb_iff (tl : List TradeEvent) (r : SymRec) :
    r ∈ compute_symbol_breakdown tl ↔ r ∈ (tl.foldl csbFold []).map Prod.snd := by
  unfold compute_symbol_breakdown
  rw [List.mem_reverse]
  exact (List.perm_insertionSort csbKey _).mem_iff

/-- C9 (amended): the per-symbol breakdown lists each nonempty (uppercased)
symbol that occurs in the trade log exactly once, with its trade count,
exit count and net realized P&L over exits, sorted by net realized
descending with ties broken by symbol name DESCENDING (the code sorts
ascending by the pair and then reverses, which reverses the tie order
too). -/
theorem C9_amended_breakdown (tl : List TradeEvent) :
    ((compute_symbol_breakdown tl).map SymRec.symbol).Nodup ∧
    (∀ r ∈ compute_symbol_breakdown tl,
      r.symbol ≠ "" ∧ 0 < tradesCount tl r.symbol ∧
      r.trades = tradesCount tl r.symbol ∧
      r.exits = exitsCount tl r.symbol ∧
      r.net_realized = netRealized tl r.symbol) ∧
    (∀ s : String, s ≠ "" → 0 < tradesCount tl s →
      ∃ r ∈ compute_symbol_breakdown tl, r.symbol = s) ∧
    (compute_symbol_breakdown tl).Pairwise (fun a b =>
      b.net_realized < a.net_realized ∨
        (b.net_realized = a.net_realized ∧ b.symbol ≤ a.symbol)) := by
  refine ⟨?_, ?_, ?_, ?_⟩
  · have hkeys := csb_fold_keys tl [] (by intro kr hkr; simp at hkr)
    have hnd := csb_fold_nodup tl [] (by simp)
    have h1 : ((tl.foldl csbFold []).map Prod.snd).map SymRec.symbol
        = (tl.foldl csbFold []).map Prod.fst := by
      rw [List.map_map]
      exact List.map_congr_left (fun kr hkr => (hkeys kr hkr).1.symm)
    have h2 : (((tl.foldl csbFold []).map Prod.snd).map SymRec.symbol).Nodup := by
      rw [h1]
      exact hnd
    unfold compute_symbol_breakdown
    rw [List.map_reverse, List.nodup_reverse]
    exact (((List.perm_insertionSort csbKey _).map SymRec.symbol).nodup_iff).mpr h2
  · intro r hr
    rw [mem_csb_iff] at hr
    obtain ⟨kr, hkr, hsnd⟩ := List.mem_map.mp hr
    obtain ⟨k, v⟩ := kr
    have hv : v = r := hsnd
    subst hv
    obtain ⟨he1, he2, he3, he4⟩ := csb_mem_entry tl k v hkr
    constructor
    · exact he1 ▸ he2
    constructor
    · exact he1 ▸ he3
    refine ⟨?_, ?_, ?_⟩ <;> rw [← he1, he4] <;> simp [addCounts]
  · intro s hs hpos
    have hl : alookup (tl.foldl csbFold []) s = some (addCounts ⟨s, 0, 0, 0⟩ tl s) := by
      rw [csb_lookup_none s hs tl [] rfl, if_neg (Nat.pos_iff_ne_zero.mp hpos)]
    refine ⟨addCounts ⟨s, 0, 0, 0⟩ tl s, ?_, rfl⟩
    rw [mem_csb_iff]
    exact List.mem_map.mpr ⟨(s, _), alookup_mem _ _ _ hl, rfl⟩
  · unfold compute_symbol_breakdown
    exact List.pairwise_reverse.mpr (by exact List.sorted_insertionSort csbKey _)

/-- C9 counterexample: two symbols A and B tied at zero net realized come
out in symbol-DESCENDING order [B, A]; the Pairwise predicate of the
claimed tie rule (symbol ascending) fails on the actual output. -/
theorem C9_counterexample_tie_order :
    (compute_symbol_breakdown
        [⟨"long", "A", 1, 10, 10, 10, 0, 0, 0, none⟩,
         ⟨"long", "B", 1, 10, 10, 10, 0, 0, 0, none⟩]).map SymRec.symbol = ["B", "A"] ∧
    ¬ (compute_symbol_breakdown
        [⟨"long", "A", 1, 10, 10, 10, 0, 0, 0, none⟩,
         ⟨"long", "B", 1, 10, 10, 10, 0, 0, 0, none⟩]).Pairwise (fun a b =>
          b.net_realized < a.net_realized ∨
            (b.net_realized = a.net_realized ∧ a.symbol ≤ b.symbol)) := by
  with_unfolding_all decide

theorem C9_amended_breakdown_witness :
    ∃ r ∈ compute_symbol_breakdown [⟨"exit", "A", 1, 10, 10, 10, 0, 5, 0, none⟩],
      r.symbol = "A" :=
  (C9_amended_breakdown [⟨"exit", "A", 1, 10, 10, 10, 0, 5, 0, none⟩]).2.2.1 "A"
    (by decide) (by with_unfolding_all decide)

lemma mergeLoop_times (evs : List (String × Nat × ℚ)) :
    ∀ (current : List ℚ) (seen : List String) (out : List EqPoint3),
      (mergeLoop evs current seen out).map EqPoint3.time
        = out.map EqPoint3.time ++ (firstDedup (evs.map (fun e => e.1)) seen).map some := by
  induction evs with
  | nil =>
    intro current seen out
    simp [mergeLoop, firstDedup]
  | cons ev rest ih =>
    intro current seen out
    obtain ⟨t, pidx, v⟩ := ev
    by_cases h : t ∈ seen
    · simp only [mergeLoop, if_pos h, List.map_cons, firstDedup]
      rw [ih]
    · simp only [mergeLoop, if_neg h, List.map_cons, firstDedup]
      rw [ih]
      simp [List.map_append, List.append_assoc]

/-- C8 (amended): the merged multi-symbol equity curve starts at
(0, initial, no date) and then carries exactly the first occurrence of
each event date in sorted order -- the dedup keeps the FIRST combined
value per date, and a symbol's j-th equity point is dated by its
(j-1)-th trade, the j = 0 point by the range start date; on the claimed
scenario the output is the three points (0, 1000, none),
(1, 1010, start date) and (2, 1005, Jan 5). -/
theorem C8_amended_merge :
    (∀ (start_date : String) (initial : ℚ)
      (pecs : List (List EquityPoint × List TradeEvent)),
      (mergeEquityMulti start_date initial pecs).map EqPoint3.time
        = none :: (firstDedup ((List.insertionSort evKey
            (mergeEvents start_date pecs)).map (fun e => e.1)) []).map some) ∧
    mergeEquityMulti "2024-01-02" 1000 pecsC8
      = [⟨0, 1000, none⟩, ⟨1, 1010, some "2024-01-02"⟩, ⟨2, 1005, some "2024-01-05"⟩] := by
  constructor
  · intro start_date initial pecs
    simp only [mergeEquityMulti]
    rw [mergeLoop_times]
    simp
  · with_unfolding_all decide

/-- C8 counterexample: on the claimed scenario the code does NOT return
the four points (0,1000), (Jan 5, 1020), (Jan 7, 1010), (Jan 10, 1005):
the j = 0 equity points are dated at the range start (not at each
point's own trade), so the dates shift by one trade and Jan 7 / Jan 10
never appear. -/
theorem C8_counterexample_merge :
    mergeEquityMulti "2024-01-02" 1000 pecsC8
      ≠ [⟨0, 1000, none⟩, ⟨1, 1020, some "2024-01-05"⟩, ⟨2, 1010, some "2024-01-07"⟩,
         ⟨3, 1005, some "2024-01-10"⟩] := by
  with_unfolding_all decide

/-- C1: the claim fails for every run: the per-symbol leg of
run_strategy_endpoint calls port.set_slippage_bps, but the Portfolio
class defines no such attribute, so every leg raises AttributeError
while applying the settings -- before the stock, the strategy or the
backtest are even touched -- and the recorded result for every symbol is
an error entry, never the claimed success record, regardless of the
symbol, the funding and whatever the rest of the leg would return. -/
theorem C1_symbol_leg_attribute_error (symbol : String) (cash_per_symbol : ℚ)
    (rest : Unit → Except String ℚ) :
    runSymbolLeg symbol cash_per_symbol rest =
      ⟨symbol, some "AttributeError: Portfolio object has no attribute set_slippage_bps",
        none, none, none⟩ := rfl

end AceMarket
